import Mathlib

/-!
# simple_mysql_redis: the cache-aside protocol of the user handlers

A shallow embedding of `main.go`: the five echo handlers (`CreateUserHandler`,
`GetUserByIDHandler`, `GetUsersHandler`, `UpdateUserHandler`, `DeleteUserHandler`)
as pure functions over an explicit MySQL table state and an explicit Redis key space.

The library calls the handlers make are embedded as well:

* `strconv.Atoi` / `strconv.ParseInt` (base 10, 64 bits) and the decimal formatting of an `int`;
* `encoding/json`: `json.Marshal` of a `User` and of a `[]User`, and `json.Unmarshal` into them
  (a JSON reader with Go's rules for filling a struct: `null` is a no-op, keys are matched
  case-insensitively, unknown keys are skipped, a value of the wrong JSON type is an error);
* Redis `GET` / `SET key value EX` / `DEL`, and the four SQL statements.

Go strings are modelled as Lean strings (sequences of Unicode scalar values, i.e. valid UTF-8).
Faults of the two external services (a statement or a cache command that fails) are inputs of
every handler, see `Faults`.
-/

namespace SimpleMysqlRedis

/-! ## Go integers and `strconv` -/

/-- The smallest `int` of a 64-bit Go platform. -/
def minInt64 : Int := -9223372036854775808

/-- The largest `int` of a 64-bit Go platform. -/
def maxInt64 : Int := 9223372036854775807

/-- The largest `uint64`. -/
def maxUint64 : Nat := 18446744073709551615

/-- Go's `int` (64 bits): an integer together with its range. -/
abbrev GoInt := { v : Int // minInt64 ≤ v ∧ v ≤ maxInt64 }

/-- The zero value of `int`. -/
def GoInt.zero : GoInt := ⟨0, by decide⟩

/-- The value `math.MaxInt64`. -/
def GoInt.max : GoInt := ⟨maxInt64, by decide⟩

/-- The value `math.MinInt64`. -/
def GoInt.min : GoInt := ⟨minInt64, by decide⟩

/-- The conversion `int64(x)` of Go: the value modulo `2^64`, in the range of `int`. -/
def GoInt.wrap (x : Int) : GoInt :=
  ⟨(x + 9223372036854775808) % 18446744073709551616 - 9223372036854775808,
    by unfold minInt64 maxInt64; omega⟩

/-- The two errors of `strconv` (`ErrSyntax`, `ErrRange`). -/
inductive NumError
  | errSyntax
  | errRange
  deriving DecidableEq, Repr

/-- An ASCII decimal digit. -/
def isDigit (c : Char) : Bool := decide (48 ≤ c.toNat) && decide (c.toNat ≤ 57)

/-- The value of a decimal digit (`c - '0'`). -/
def digitVal (c : Char) : Nat := c.toNat - 48

/-- The digit character of `d < 10`. -/
def digitChar (d : Nat) : Char := Char.ofNat (48 + d)

/-- The digit loop of `strconv.ParseUint(s, 10, 64)`: a character that is no digit is a syntax
error (value 0); a value past `uint64` is a range error (value `maxUint64`), reported at the
digit where it overflows. -/
def parseUintLoop : List Char → Nat → Nat × Option NumError
  | [], n => (n, none)
  | c :: cs, n =>
    if isDigit c then
      if 1844674407370955162 ≤ n then (maxUint64, some NumError.errRange)
      else if maxUint64 < n * 10 + digitVal c then (maxUint64, some NumError.errRange)
      else parseUintLoop cs (n * 10 + digitVal c)
    else (0, some NumError.errSyntax)

/-- Go's `strconv.ParseUint(s, 10, 64)`. -/
def ParseUint (s : List Char) : Nat × Option NumError :=
  match s with
  | [] => (0, some NumError.errSyntax)
  | _ :: _ => parseUintLoop s 0

/-- Go's `strconv.ParseInt(s, 10, 64)`: an optional sign, then `ParseUint`; a syntax error gives
0, a magnitude out of range gives the nearest bound together with `ErrRange`. -/
def ParseInt (s : List Char) : GoInt × Option NumError :=
  match s with
  | [] => (GoInt.zero, some NumError.errSyntax)
  | c :: cs =>
    let neg : Bool := decide (c = '-')
    let body : List Char := if c = '+' ∨ c = '-' then cs else c :: cs
    let r : Nat × Option NumError := ParseUint body
    if r.2 = some NumError.errSyntax then (GoInt.zero, some NumError.errSyntax)
    else if neg then
      if r.1 ≤ 9223372036854775808 then (GoInt.wrap (-(r.1 : Int)), none)
      else (GoInt.min, some NumError.errRange)
    else
      if r.1 < 9223372036854775808 then (GoInt.wrap (r.1 : Int), none)
      else (GoInt.max, some NumError.errRange)

/-- Go's `strconv.Atoi(s)`: `ParseInt(s, 10, 0)` converted to `int` (its fast path for short
strings computes the same value and the same kind of error). -/
def Atoi (s : String) : GoInt × Option NumError := ParseInt s.data

/-- The decimal digits of a natural number, most significant first (`fuel > n` suffices). -/
def natDigitsAux : Nat → Nat → List Char → List Char
  | 0, _, acc => acc
  | fuel + 1, n, acc =>
    if n < 10 then digitChar n :: acc
    else natDigitsAux fuel (n / 10) (digitChar (n % 10) :: acc)

/-- The decimal numeral of a natural number. -/
def formatNat (n : Nat) : List Char := natDigitsAux (n + 1) n []

/-- Go's `strconv.FormatInt(v, 10)`. -/
def FormatInt (v : Int) : List Char :=
  if v < 0 then '-' :: formatNat v.natAbs else formatNat v.toNat

/-! ## The data model of `main.go` -/

/-- The `User` struct (`json:"id"`, `json:"name"`, `json:"email"`, `json:"age"`). -/
structure User where
  ID : GoInt
  Name : String
  Email : String
  Age : GoInt
  deriving DecidableEq

/-- The zero value of `User`, what `var user User` declares. -/
def User.zero : User := ⟨GoInt.zero, "", "", GoInt.zero⟩

/-- A Go `[]User`: `none` is the nil slice, `some xs` a non-nil slice with elements `xs`. -/
abbrev UserSlice := Option (List User)

/-- Go's `append(users, user)`. -/
def UserSlice.append (s : UserSlice) (u : User) : UserSlice :=
  match s with
  | none => some [u]
  | some xs => some (xs ++ [u])

/-! ## `encoding/json`: `json.Marshal` -/

/-- A lower-case hexadecimal digit (`"0123456789abcdef"[d]`). -/
def hexDigit (d : Nat) : Char := if d < 10 then Char.ofNat (48 + d) else Char.ofNat (87 + d)

/-- How `json.Marshal` writes one character of a string (HTML escaping on, as `Marshal` has it;
the short escapes for backspace and form feed are those of Go 1.22 and later). -/
def escapeChar (c : Char) : List Char :=
  if c = '"' then ['\\', '"']
  else if c = '\\' then ['\\', '\\']
  else if c.toNat = 8 then ['\\', 'b']
  else if c.toNat = 12 then ['\\', 'f']
  else if c = '\n' then ['\\', 'n']
  else if c = '\r' then ['\\', 'r']
  else if c = '\t' then ['\\', 't']
  else if c.toNat < 32 ∨ c = '<' ∨ c = '>' ∨ c = '&' then
    ['\\', 'u', '0', '0', hexDigit (c.toNat / 16), hexDigit (c.toNat % 16)]
  else if c.toNat = 8232 ∨ c.toNat = 8233 then
    ['\\', 'u', '2', '0', '2', hexDigit (c.toNat % 16)]
  else [c]

/-- The escaped characters of a string, its closing quote, then `rest`. -/
def escapeInto : List Char → List Char → List Char
  | [], rest => '"' :: rest
  | c :: cs, rest => escapeChar c ++ escapeInto cs rest

/-- A JSON string literal followed by `rest`. -/
def encodeString (s : List Char) (rest : List Char) : List Char := '"' :: escapeInto s rest

/-- The JSON object of a `User` followed by `rest`: the fields in declaration order under
their `json` names. -/
def encodeUser (u : User) (rest : List Char) : List Char :=
  '{' :: encodeString "id".data (':' :: (FormatInt u.ID.val ++ (',' ::
    encodeString "name".data (':' :: encodeString u.Name.data (',' ::
    encodeString "email".data (':' :: encodeString u.Email.data (',' ::
    encodeString "age".data (':' :: (FormatInt u.Age.val ++ ('}' :: rest))))))))))

/-- The elements of a non-empty JSON array of users after the first one, the closing bracket,
then `rest`. -/
def encodeUserTail : List User → List Char → List Char
  | [], rest => ']' :: rest
  | u :: us, rest => ',' :: encodeUser u (encodeUserTail us rest)

/-- The JSON array of a list of users followed by `rest`. -/
def encodeUserList (us : List User) (rest : List Char) : List Char :=
  match us with
  | [] => '[' :: ']' :: rest
  | u :: us => '[' :: encodeUser u (encodeUserTail us rest)

/-- Go's `json.Marshal(user)` for a `User`. -/
def marshalUser (u : User) : String := String.mk (encodeUser u [])

/-- Go's `json.Marshal(users)` for a `[]User`: a nil slice is written `null`. -/
def marshalUsers (s : UserSlice) : String :=
  match s with
  | none => "null"
  | some us => String.mk (encodeUserList us [])

/-! ## `encoding/json`: reading a JSON text -/

/-- A JSON value as `json.Unmarshal` reads it; a number keeps its literal, which decides
whether it fits an `int` field. -/
inductive JVal
  | null
  | bool (b : Bool)
  | num (lit : List Char)
  | str (s : List Char)
  | arr (xs : List JVal)
  | obj (ms : List (List Char × JVal))

/-- Why `json.Unmarshal` returns a non-nil error; `outOfFuel` is the recursion bound of the
reader, which `parseJSON` never reaches (`parseJSON_fuel_adequate`). -/
inductive JsonError
  | malformed
  | typeMismatch
  | outOfFuel
  deriving DecidableEq, Repr

deriving instance DecidableEq for Except

/-- JSON white space: space, tab, carriage return, line feed. -/
def isSpace (c : Char) : Bool :=
  decide (c = ' ') || decide (c = '\t') || decide (c = '\r') || decide (c = '\n')

/-- Drop leading white space. -/
def skipSpace : List Char → List Char
  | [] => []
  | c :: cs => if isSpace c then skipSpace cs else c :: cs

/-- The value of a hexadecimal digit, either case. -/
def hexVal (c : Char) : Option Nat :=
  if isDigit c then some (c.toNat - 48)
  else if 97 ≤ c.toNat ∧ c.toNat ≤ 102 then some (c.toNat - 87)
  else if 65 ≤ c.toNat ∧ c.toNat ≤ 70 then some (c.toNat - 55)
  else none

/-- The code unit of the four hexadecimal digits of a `\u` escape (`getu4`). -/
def hex4 (a b c d : Char) : Option Nat :=
  match hexVal a, hexVal b, hexVal c, hexVal d with
  | some x, some y, some z, some w => some (((x * 16 + y) * 16 + z) * 16 + w)
  | _, _, _, _ => none

/-- One piece of a string literal: a character (written raw or by a short escape) or the code
unit of a `\u` escape, which may be half of a surrogate pair. -/
inductive StrItem
  | ch (c : Char)
  | u16 (n : Nat)

/-- The character of a short escape (the character after the backslash). -/
def shortEscape (e : Char) : Option Char :=
  if e = '"' then some '"'
  else if e = '\\' then some '\\'
  else if e = '/' then some '/'
  else if e = 'b' then some (Char.ofNat 8)
  else if e = 'f' then some (Char.ofNat 12)
  else if e = 'n' then some '\n'
  else if e = 'r' then some '\r'
  else if e = 't' then some '\t'
  else none

/-- Read a string literal after its opening quote, up to the closing quote: the pieces and
what follows. A raw control character, an unknown escape, a `\u` without four hexadecimal
digits and a missing closing quote are errors. -/
def readStringItems : List Char → Option (List StrItem × List Char)
  | [] => none
  | c :: cs =>
    if c = '"' then some ([], cs)
    else if c = '\\' then
      match cs with
      | [] => none
      | e :: cs1 =>
        if e = 'u' then
          match cs1 with
          | h1 :: h2 :: h3 :: h4 :: cs2 =>
            match hex4 h1 h2 h3 h4 with
            | none => none
            | some n =>
              match readStringItems cs2 with
              | none => none
              | some (items, r) => some (StrItem.u16 n :: items, r)
          | _ => none
        else
          match shortEscape e with
          | none => none
          | some x =>
            match readStringItems cs1 with
            | none => none
            | some (items, r) => some (StrItem.ch x :: items, r)
    else if c.toNat < 32 then none
    else
      match readStringItems cs with
      | none => none
      | some (items, r) => some (StrItem.ch c :: items, r)

/-- A high (leading) surrogate code unit. -/
def isHighSurrogate (n : Nat) : Bool := decide (55296 ≤ n) && decide (n < 56320)

/-- A low (trailing) surrogate code unit. -/
def isLowSurrogate (n : Nat) : Bool := decide (56320 ≤ n) && decide (n < 57344)

/-- The Unicode replacement character U+FFFD. -/
def replacementChar : Char := Char.ofNat 65533

/-- The character of a `\u` escape that is not part of a surrogate pair: U+FFFD for a lone
surrogate. -/
def unitChar (n : Nat) : Char :=
  if isHighSurrogate n || isLowSurrogate n then replacementChar else Char.ofNat n

/-- The characters of the pieces of a string literal (`unquote`): a high surrogate escape
directly followed by a low surrogate escape is one character, any other surrogate escape is
U+FFFD. -/
def combineItems : List StrItem → List Char
  | [] => []
  | StrItem.ch c :: rest => c :: combineItems rest
  | StrItem.u16 n :: StrItem.u16 m :: rest =>
    if isHighSurrogate n && isLowSurrogate m then
      Char.ofNat (65536 + (n - 55296) * 1024 + (m - 56320)) :: combineItems rest
    else unitChar n :: combineItems (StrItem.u16 m :: rest)
  | StrItem.u16 n :: rest => unitChar n :: combineItems rest

/-- Read a string literal after its opening quote: its characters and what follows. -/
def readString (cs : List Char) : Option (List Char × List Char) :=
  match readStringItems cs with
  | none => none
  | some (items, r) => some (combineItems items, r)

/-- The longest run of digits at the front of the input, and what follows. -/
def takeDigits : List Char → List Char × List Char
  | [] => ([], [])
  | c :: cs =>
    if isDigit c then ((takeDigits cs).1.cons c, (takeDigits cs).2) else ([], c :: cs)

/-- The integer part of a JSON number: `0`, or a digit from 1 to 9 followed by digits. -/
def readIntPart : List Char → Option (List Char × List Char)
  | [] => none
  | c :: cs =>
    if c = '0' then some (['0'], cs)
    else if isDigit c then some (c :: (takeDigits cs).1, (takeDigits cs).2)
    else none

/-- The optional fraction of a JSON number: a dot must be followed by at least one digit. -/
def readFraction : List Char → Option (List Char × List Char)
  | [] => some ([], [])
  | c :: cs =>
    if c = '.' then
      if (takeDigits cs).1 = [] then none else some ('.' :: (takeDigits cs).1, (takeDigits cs).2)
    else some ([], c :: cs)

/-- The digits of an exponent, at least one. -/
def readExpDigits (mark : List Char) (cs : List Char) : Option (List Char × List Char) :=
  if (takeDigits cs).1 = [] then none else some (mark ++ (takeDigits cs).1, (takeDigits cs).2)

/-- The optional exponent of a JSON number: `e` or `E`, an optional sign, at least one
digit. -/
def readExponent : List Char → Option (List Char × List Char)
  | [] => some ([], [])
  | c :: cs =>
    if c = 'e' ∨ c = 'E' then
      match cs with
      | [] => none
      | s :: cs1 =>
        if s = '+' ∨ s = '-' then readExpDigits [c, s] cs1 else readExpDigits [c] (s :: cs1)
    else some ([], c :: cs)

/-- Read a JSON number: its literal and what follows. -/
def readNumber (cs : List Char) : Option (List Char × List Char) :=
  let sign : List Char := match cs with
    | [] => []
    | c :: _ => if c = '-' then ['-'] else []
  let body : List Char := match cs with
    | [] => []
    | c :: r => if c = '-' then r else c :: r
  match readIntPart body with
  | none => none
  | some (ip, r1) =>
    match readFraction r1 with
    | none => none
    | some (fp, r2) =>
      match readExponent r2 with
      | none => none
      | some (ep, r3) => some (sign ++ ip ++ fp ++ ep, r3)

/-- Remove the literal `lit` from the front of the input. -/
def dropLiteral : List Char → List Char → Option (List Char)
  | [], cs => some cs
  | _ :: _, [] => none
  | l :: ls, c :: cs => if l = c then dropLiteral ls cs else none

/-- The nesting depth past which the scanner gives up (`maxNestingDepth`). -/
def maxNestingDepth : Nat := 10000

mutual

/-- Read one JSON value (after optional white space) and return it with what follows. `fuel`
bounds the recursion, `depth` counts the arrays and objects that are open. -/
def parseValue : Nat → Nat → List Char → Except JsonError (JVal × List Char)
  | 0, _, _ => Except.error JsonError.outOfFuel
  | fuel + 1, depth, cs =>
    match skipSpace cs with
    | [] => Except.error JsonError.malformed
    | c :: rest =>
      if c = '-' ∨ isDigit c = true then
        match readNumber (c :: rest) with
        | none => Except.error JsonError.malformed
        | some (lit, r) => Except.ok (JVal.num lit, r)
      else if c = '"' then
        match readString rest with
        | none => Except.error JsonError.malformed
        | some (s, r) => Except.ok (JVal.str s, r)
      else if c = '{' then
        if maxNestingDepth ≤ depth then Except.error JsonError.malformed
        else
          match skipSpace rest with
          | [] => Except.error JsonError.malformed
          | k :: r =>
            if k = '}' then Except.ok (JVal.obj [], r)
            else parseMembers fuel (depth + 1) (k :: r) []
      else if c = '[' then
        if maxNestingDepth ≤ depth then Except.error JsonError.malformed
        else
          match skipSpace rest with
          | [] => Except.error JsonError.malformed
          | k :: r =>
            if k = ']' then Except.ok (JVal.arr [], r)
            else parseElements fuel (depth + 1) (k :: r) []
      else if c = 't' then
        match dropLiteral ['r', 'u', 'e'] rest with
        | none => Except.error JsonError.malformed
        | some r => Except.ok (JVal.bool true, r)
      else if c = 'f' then
        match dropLiteral ['a', 'l', 's', 'e'] rest with
        | none => Except.error JsonError.malformed
        | some r => Except.ok (JVal.bool false, r)
      else if c = 'n' then
        match dropLiteral ['u', 'l', 'l'] rest with
        | none => Except.error JsonError.malformed
        | some r => Except.ok (JVal.null, r)
      else Except.error JsonError.malformed

/-- Read the members of an object from a key on, up to the closing brace; `acc` holds the
members read so far. -/
def parseMembers : Nat → Nat → List Char → List (List Char × JVal) →
    Except JsonError (JVal × List Char)
  | 0, _, _, _ => Except.error JsonError.outOfFuel
  | fuel + 1, depth, cs, acc =>
    match skipSpace cs with
    | [] => Except.error JsonError.malformed
    | q :: r0 =>
      if q = '"' then
        match readString r0 with
        | none => Except.error JsonError.malformed
        | some (key, r1) =>
          match skipSpace r1 with
          | [] => Except.error JsonError.malformed
          | colon :: r2 =>
            if colon = ':' then
              match parseValue fuel depth r2 with
              | Except.error e => Except.error e
              | Except.ok (v, r3) =>
                match skipSpace r3 with
                | [] => Except.error JsonError.malformed
                | sep :: r4 =>
                  if sep = ',' then parseMembers fuel depth r4 (acc ++ [(key, v)])
                  else if sep = '}' then Except.ok (JVal.obj (acc ++ [(key, v)]), r4)
                  else Except.error JsonError.malformed
            else Except.error JsonError.malformed
      else Except.error JsonError.malformed

/-- Read the elements of an array from a value on, up to the closing bracket. -/
def parseElements : Nat → Nat → List Char → List JVal → Except JsonError (JVal × List Char)
  | 0, _, _, _ => Except.error JsonError.outOfFuel
  | fuel + 1, depth, cs, acc =>
    match parseValue fuel depth cs with
    | Except.error e => Except.error e
    | Except.ok (v, r) =>
      match skipSpace r with
      | [] => Except.error JsonError.malformed
      | sep :: r1 =>
        if sep = ',' then parseElements fuel depth r1 (acc ++ [v])
        else if sep = ']' then Except.ok (JVal.arr (acc ++ [v]), r1)
        else Except.error JsonError.malformed

end

/-- Read a whole JSON text: one value, white space allowed around it, nothing else. This is
what `json.Unmarshal` checks (`checkValid`) before it fills its target. The fuel, twice the
length of the text plus one, is never used up (`parseJSON_fuel_adequate`). -/
def parseJSON (cs : List Char) : Except JsonError JVal :=
  match parseValue (2 * cs.length + 1) 0 cs with
  | Except.error e => Except.error e
  | Except.ok (v, r) =>
    match skipSpace r with
    | [] => Except.ok v
    | _ :: _ => Except.error JsonError.malformed

/-! ## `encoding/json`: `json.Unmarshal` into a `User` and into a `[]User` -/

/-- Case folding of a key character: ASCII letters are folded to upper case. (No character
outside ASCII folds to a letter of `id`, `name`, `email` or `age`.) -/
def foldChar (c : Char) : Char :=
  if 97 ≤ c.toNat ∧ c.toNat ≤ 122 then Char.ofNat (c.toNat - 32) else c

/-- The folded form of an object key (`foldName`). -/
def foldName (key : List Char) : List Char := key.map foldChar

/-- The four fields of `User`. -/
inductive UserField
  | id
  | name
  | email
  | age
  deriving DecidableEq

/-- The field an object key fills: the field whose `json` name equals the key up to case;
`none` for an unknown key, whose value is skipped. -/
def fieldOfKey (key : List Char) : Option UserField :=
  if foldName key = "ID".data then some UserField.id
  else if foldName key = "NAME".data then some UserField.name
  else if foldName key = "EMAIL".data then some UserField.email
  else if foldName key = "AGE".data then some UserField.age
  else none

/-- Fill an `int` field from a JSON value: `null` leaves it, a number must be an integer
literal in range (`strconv.ParseInt` succeeds), anything else is a type error. -/
def decodeInt (old : GoInt) (v : JVal) : Except JsonError GoInt :=
  match v with
  | JVal.null => Except.ok old
  | JVal.num lit =>
    match ParseInt lit with
    | (n, none) => Except.ok n
    | (_, some _) => Except.error JsonError.typeMismatch
  | _ => Except.error JsonError.typeMismatch

/-- Fill a `string` field from a JSON value: `null` leaves it, a string sets it, anything else
is a type error. -/
def decodeStr (old : String) (v : JVal) : Except JsonError String :=
  match v with
  | JVal.null => Except.ok old
  | JVal.str s => Except.ok (String.mk s)
  | _ => Except.error JsonError.typeMismatch

/-- Fill one field of a user from a JSON value. -/
def setField (u : User) (f : UserField) (v : JVal) : Except JsonError User :=
  match f with
  | UserField.id => (decodeInt u.ID v).map (fun n => { u with ID := n })
  | UserField.name => (decodeStr u.Name v).map (fun x => { u with Name := x })
  | UserField.email => (decodeStr u.Email v).map (fun x => { u with Email := x })
  | UserField.age => (decodeInt u.Age v).map (fun n => { u with Age := n })

/-- Fill a user from the members of a JSON object, in order (a later member with the same
key overwrites an earlier one). -/
def decodeMembers (u : User) : List (List Char × JVal) → Except JsonError User
  | [] => Except.ok u
  | (key, v) :: ms =>
    match fieldOfKey key with
    | none => decodeMembers u ms
    | some f =>
      match setField u f v with
      | Except.error e => Except.error e
      | Except.ok w => decodeMembers w ms

/-- Fill a user from a JSON value: `null` leaves it, an object fills its fields, any other
value is a type error. -/
def decodeUser (u : User) (v : JVal) : Except JsonError User :=
  match v with
  | JVal.null => Except.ok u
  | JVal.obj ms => decodeMembers u ms
  | _ => Except.error JsonError.typeMismatch

/-- Decode the elements of a JSON array, each into a zero `User`. -/
def decodeElements : List JVal → Except JsonError (List User)
  | [] => Except.ok []
  | v :: vs =>
    match decodeUser User.zero v with
    | Except.error e => Except.error e
    | Except.ok u =>
      match decodeElements vs with
      | Except.error e => Except.error e
      | Except.ok us => Except.ok (u :: us)

/-- Fill a nil `[]User` from a JSON value: `null` leaves it nil, an array gives a non-nil
slice, any other value is a type error. -/
def decodeUsers (v : JVal) : Except JsonError UserSlice :=
  match v with
  | JVal.null => Except.ok none
  | JVal.arr xs => (decodeElements xs).map some
  | _ => Except.error JsonError.typeMismatch

/-- Go's `json.Unmarshal([]byte(s), &user)` with `var user User`: the decoded user, or the
error. -/
def unmarshalUser (s : String) : Except JsonError User :=
  match parseJSON s.data with
  | Except.error e => Except.error e
  | Except.ok v => decodeUser User.zero v

/-- Go's `json.Unmarshal([]byte(s), &users)` with `var users []User`. -/
def unmarshalUsers (s : String) : Except JsonError UserSlice :=
  match parseJSON s.data with
  | Except.error e => Except.error e
  | Except.ok v => decodeUsers v

/-- The JSON value `json.Marshal` writes for a user: an object with the four fields in
declaration order. -/
def User.toJVal (u : User) : JVal :=
  JVal.obj [("id".data, JVal.num (FormatInt u.ID.val)), ("name".data, JVal.str u.Name.data),
    ("email".data, JVal.str u.Email.data), ("age".data, JVal.num (FormatInt u.Age.val))]

/-! ## The Redis key space -/

/-- A Redis string value with its time to live, a `time.Duration` in nanoseconds. -/
structure Entry where
  value : String
  ttl : Nat
  deriving DecidableEq

/-- The key space behind the global `redisClient`. -/
structure RedisClient where
  data : String → Option Entry

/-- The duration `10*time.Minute`. -/
def tenMinutes : Nat := 10 * (60 * 1000000000)

/-- The call `redisClient.Client.Get(ctx, key).Result()`: `none` when `err != nil`, which is both
a missing key (`redis.Nil`) and a command that fails. -/
def RedisClient.Get (rc : RedisClient) (fails : Bool) (key : String) : Option String :=
  if fails then none else (rc.data key).map Entry.value

/-- The call `redisClient.Client.Set(ctx, key, value, ttl)`, its result dropped: a command that
fails leaves the key space as it is. -/
def RedisClient.Set (rc : RedisClient) (fails : Bool) (key value : String) (ttl : Nat) :
    RedisClient :=
  if fails then rc else ⟨fun k => if k = key then some ⟨value, ttl⟩ else rc.data k⟩

/-- The call `redisClient.Client.Del(ctx, key)`, its result dropped. -/
def RedisClient.Del (rc : RedisClient) (fails : Bool) (key : String) : RedisClient :=
  if fails then rc else ⟨fun k => if k = key then none else rc.data k⟩

/-- The key space with no key. -/
def RedisClient.empty : RedisClient := ⟨fun _ => none⟩

/-! ## The `users` table -/

/-- The table `users(id, name, email, age)` behind `db.Conn`: its rows in the order a
`SELECT` without `WHERE` returns them, and the `AUTO_INCREMENT` counter. -/
structure Database where
  rows : List User
  nextID : Int

/-- Which calls to the two services fail in one request: the SQL statement (connection lost,
timeout), the `Scan` of the row with a given index in `GetUsersHandler`, and the Redis
commands. -/
structure Faults where
  storeErr : Bool
  scanErrAt : Option Nat
  cacheGetErr : Bool
  cacheSetErr : Bool
  cacheDelErr : Bool

/-- A request in which every call succeeds. -/
def noFaults : Faults := ⟨false, none, false, false, false⟩

/-- The outcome of `db.Conn.QueryRow(query, id).Scan(...)`. -/
inductive ScanResult
  | row (u : User)
  | errNoRows
  | otherErr
  deriving DecidableEq

/-- The statement `SELECT id, name, email, age FROM users WHERE id = ?` with the text parameter
`id`, scanned by `QueryRow(...).Scan`: the first matching row. `idEq` is the comparison MySQL
makes between the text parameter and the integer column. -/
def Database.QueryRowByID (idEq : String → GoInt → Bool) (db : Database) (fails : Bool)
    (id : String) : ScanResult :=
  if fails then ScanResult.otherErr
  else
    match db.rows.find? (fun r => idEq id r.ID) with
    | some u => ScanResult.row u
    | none => ScanResult.errNoRows

/-- The statement `SELECT id, name, email, age FROM users`: `none` when `Query` fails. -/
def Database.QueryAll (db : Database) (fails : Bool) : Option (List User) :=
  if fails then none else some db.rows

/-- The statement `INSERT INTO users (name, email, age) VALUES (?, ?, ?)` and
`LastInsertId`: the row gets the counter value as its id. The statement fails when the counter
has left the range of the column or the id is already taken (duplicate key). -/
def Database.ExecInsert (db : Database) (fails : Bool) (name email : String) (age : GoInt) :
    Option (Database × GoInt) :=
  if fails then none
  else if h : minInt64 ≤ db.nextID ∧ db.nextID ≤ maxInt64 then
    if db.rows.any (fun r => decide (r.ID.val = db.nextID)) then none
    else some (⟨db.rows ++ [⟨⟨db.nextID, h⟩, name, email, age⟩], db.nextID + 1⟩, ⟨db.nextID, h⟩)
  else none

/-- The statement `UPDATE users SET name=?, email=?, age=? WHERE id=?`: it succeeds whether
or not a row matches. -/
def Database.ExecUpdate (db : Database) (fails : Bool) (u : User) : Option Database :=
  if fails then none
  else some ⟨db.rows.map (fun r => if r.ID = u.ID then ⟨r.ID, u.Name, u.Email, u.Age⟩ else r),
    db.nextID⟩

/-- The statement `DELETE FROM users WHERE id=?`: it succeeds whether or not a row matches. -/
def Database.ExecDelete (db : Database) (fails : Bool) (id : GoInt) : Option Database :=
  if fails then none
  else some ⟨db.rows.filter (fun r => decide (r.ID ≠ id)), db.nextID⟩

/-- A sample `idEq` for the concrete scenarios, which use the parameters `1` and `2` only:
the parameter is a decimal numeral that `Atoi` reads as the id. On such a parameter it gives
what the store gives. It is not the store's comparison in general: MySQL converts the text
to a number, so it also matches other spellings of the id (`1.0`, `1e0`, a leading blank),
which this sample does not. Every general statement holds for every `idEq`. -/
def numeralEq (s : String) (n : GoInt) : Bool := decide (Atoi s = (n, none))

/-! ## Responses -/

/-- The `Data interface{}` of a response: absent (`nil`), a `User`, or a `[]User`. -/
inductive Payload
  | absent
  | user (u : User)
  | users (us : UserSlice)
  deriving DecidableEq

/-- The `Response` struct. -/
structure Response where
  ReturnCode : String
  ReturnDesc : String
  Data : Payload
  deriving DecidableEq

/-- What `c.JSON(status, response)` sends. -/
structure HttpResponse where
  status : Nat
  body : Response
  deriving DecidableEq

/-- The result of a handler: the response, and the table and the key space it leaves. -/
structure Outcome where
  resp : HttpResponse
  db : Database
  rc : RedisClient

/-! ## The handlers -/

/-- The handler `CreateUserHandler`. `bind` is the result of `c.Bind(&user)`: `none` when it
returns an error. -/
def CreateUserHandler (db : Database) (rc : RedisClient) (f : Faults) (bind : Option User) :
    Outcome :=
  match bind with
  | none => ⟨⟨400, ⟨"99", "Invalid request body", Payload.absent⟩⟩, db, rc⟩
  | some user =>
    match db.ExecInsert f.storeErr user.Name user.Email user.Age with
    | none => ⟨⟨500, ⟨"99", "Failed to create user", Payload.absent⟩⟩, db, rc⟩
    | some (db1, id) =>
      ⟨⟨200, ⟨"00", "User created successfully", Payload.user { user with ID := id }⟩⟩, db1, rc⟩

/-- The cache key of a single user, `"user:" + id`. -/
def userKey (id : String) : String := "user:" ++ id

/-- The store path of `GetUserByIDHandler` (from `query :=` on): look the row up, cache it for
ten minutes, answer. -/
def getUserByIDFromStore (idEq : String → GoInt → Bool) (db : Database) (rc : RedisClient)
    (f : Faults) (id : String) : Outcome :=
  match db.QueryRowByID idEq f.storeErr id with
  | ScanResult.errNoRows => ⟨⟨404, ⟨"01", "User not found", Payload.absent⟩⟩, db, rc⟩
  | ScanResult.otherErr => ⟨⟨500, ⟨"99", "Failed to fetch user", Payload.absent⟩⟩, db, rc⟩
  | ScanResult.row user =>
    ⟨⟨200, ⟨"00", "Success", Payload.user user⟩⟩, db,
      rc.Set f.cacheSetErr (userKey id) (marshalUser user) tenMinutes⟩

/-- The handler `GetUserByIDHandler`; `id` is the path parameter `c.Param("id")`. -/
def GetUserByIDHandler (idEq : String → GoInt → Bool) (db : Database) (rc : RedisClient)
    (f : Faults) (id : String) : Outcome :=
  match rc.Get f.cacheGetErr (userKey id) with
  | some cachedData =>
    match unmarshalUser cachedData with
    | Except.ok user => ⟨⟨200, ⟨"00", "Success (cached)", Payload.user user⟩⟩, db, rc⟩
    | Except.error _ => getUserByIDFromStore idEq db rc f id
  | none => getUserByIDFromStore idEq db rc f id

/-- The loop `for rows.Next() { rows.Scan(...); users = append(users, user) }`: `none` when the
`Scan` of a row fails. `i` is the index of the next row. -/
def scanRows : List User → Nat → Option Nat → UserSlice → Option UserSlice
  | [], _, _, acc => some acc
  | u :: us, i, errAt, acc =>
    if errAt = some i then none else scanRows us (i + 1) errAt (acc.append u)

/-- The store path of `GetUsersHandler` (from `query :=` on). -/
def getUsersFromStore (db : Database) (rc : RedisClient) (f : Faults) : Outcome :=
  match db.QueryAll f.storeErr with
  | none => ⟨⟨500, ⟨"99", "Failed to fetch users", Payload.absent⟩⟩, db, rc⟩
  | some rows =>
    match scanRows rows 0 f.scanErrAt none with
    | none => ⟨⟨500, ⟨"99", "Error scanning data", Payload.absent⟩⟩, db, rc⟩
    | some users =>
      ⟨⟨200, ⟨"00", "Success", Payload.users users⟩⟩, db,
        rc.Set f.cacheSetErr "users" (marshalUsers users) tenMinutes⟩

/-- The handler `GetUsersHandler`. -/
def GetUsersHandler (db : Database) (rc : RedisClient) (f : Faults) : Outcome :=
  match rc.Get f.cacheGetErr "users" with
  | some cachedData =>
    match unmarshalUsers cachedData with
    | Except.ok users => ⟨⟨200, ⟨"00", "Success (cached)", Payload.users users⟩⟩, db, rc⟩
    | Except.error _ => getUsersFromStore db rc f
  | none => getUsersFromStore db rc f

/-- The handler `UpdateUserHandler`; `bind` is the result of `c.Bind(&user)`. -/
def UpdateUserHandler (db : Database) (rc : RedisClient) (f : Faults) (bind : Option User) :
    Outcome :=
  match bind with
  | none => ⟨⟨400, ⟨"99", "Invalid request body", Payload.absent⟩⟩, db, rc⟩
  | some user =>
    match db.ExecUpdate f.storeErr user with
    | none => ⟨⟨500, ⟨"99", "Failed to update user", Payload.absent⟩⟩, db, rc⟩
    | some db1 =>
      ⟨⟨200, ⟨"00", "User updated successfully", Payload.user user⟩⟩, db1,
        rc.Del f.cacheDelErr "users"⟩

/-- The handler `DeleteUserHandler`; `param` is the path parameter `c.Param("id")`, whose
`Atoi` error is dropped. -/
def DeleteUserHandler (db : Database) (rc : RedisClient) (f : Faults) (param : String) :
    Outcome :=
  match db.ExecDelete f.storeErr (Atoi param).1 with
  | none => ⟨⟨500, ⟨"99", "Failed to delete user", Payload.absent⟩⟩, db, rc⟩
  | some db1 =>
    ⟨⟨200, ⟨"00", "User deleted successfully", Payload.absent⟩⟩, db1, rc.Del f.cacheDelErr "users"⟩

/-- Whether `GetUserByIDHandler` answers from the cache: the `Get` returns a value and
`json.Unmarshal` accepts it. -/
def userCacheHit (rc : RedisClient) (f : Faults) (id : String) : Bool :=
  match rc.Get f.cacheGetErr (userKey id) with
  | some s =>
    match unmarshalUser s with
    | Except.ok _ => true
    | Except.error _ => false
  | none => false

/-- Whether `GetUsersHandler` answers from the cache. -/
def listCacheHit (rc : RedisClient) (f : Faults) : Bool :=
  match rc.Get f.cacheGetErr "users" with
  | some s =>
    match unmarshalUsers s with
    | Except.ok _ => true
    | Except.error _ => false
  | none => false

/-! ## Sample data -/

/-- A stored user with id 1. -/
def ann : User := ⟨⟨1, by decide⟩, "Ann", "a@x.com", ⟨30, by decide⟩⟩

/-- The request body that creates a second user (the id of a body is ignored by the insert). -/
def bobRequest : User := ⟨GoInt.zero, "Bob", "b@x.com", ⟨41, by decide⟩⟩

/-- The user `bobRequest` becomes under id 2. -/
def bob : User := ⟨⟨2, by decide⟩, "Bob", "b@x.com", ⟨41, by decide⟩⟩

/-- A stored user whose id is `math.MaxInt64`. -/
def zed : User := ⟨GoInt.max, "Zed", "z@x.com", ⟨7, by decide⟩⟩

/-- A stored user whose id is 0. -/
def nil0 : User := ⟨GoInt.zero, "Nil", "n@x.com", ⟨9, by decide⟩⟩

/-- A table that holds `ann` alone. -/
def annTable : Database := ⟨[ann], 2⟩

/-- A key space with one entry. -/
def RedisClient.single (key value : String) : RedisClient :=
  ⟨fun k => if k = key then some ⟨value, tenMinutes⟩ else none⟩

/-- The slice `GetUsersHandler` builds from the rows of the table when every `Scan`
succeeds: nil for no rows. -/
def sliceOfRows (rows : List User) : UserSlice := rows.foldl UserSlice.append none

/-- A request in which the SQL statement fails and the Redis commands succeed. -/
def storeDown : Faults := ⟨true, none, false, false, false⟩

/-- A request in which the SQL statement succeeds and every Redis command fails. -/
def cacheDown : Faults := ⟨false, none, true, true, true⟩

/-- Scenario: the list is read on the table holding `ann`, starting with an empty cache. -/
def listRead : Outcome := GetUsersHandler annTable RedisClient.empty noFaults

/-- Scenario: after `listRead`, a user is created. -/
def listReadThenCreate : Outcome :=
  CreateUserHandler listRead.db listRead.rc noFaults (some bobRequest)

/-- Scenario: after `listRead`, user 1 is updated instead. -/
def listReadThenUpdate : Outcome :=
  UpdateUserHandler listRead.db listRead.rc noFaults (some ann)

/-- Scenario: user 1 is read on the table holding `ann`, starting with an empty cache. -/
def userRead : Outcome := GetUserByIDHandler numeralEq annTable RedisClient.empty noFaults "1"

/-- Scenario: after `userRead`, user 1 is deleted. -/
def userReadThenDelete : Outcome := DeleteUserHandler userRead.db userRead.rc noFaults "1"

/-- A table that holds a row with id 0 and a row with id `math.MaxInt64`. -/
def edgeTable : Database := ⟨[nil0, zed], 1⟩

/-! # Theorems -/

set_option maxRecDepth 100000

/-! ## Digits -/

theorem isDigit_digitChar (d : Nat) (h : d < 10) : isDigit (digitChar d) = true := by
  interval_cases d <;> decide

theorem digitVal_digitChar (d : Nat) (h : d < 10) : digitVal (digitChar d) = d := by
  interval_cases d <;> decide

theorem digitChar_ne_zero (d : Nat) (h0 : 0 < d) (h : d < 10) : digitChar d ≠ '0' := by
  interval_cases d <;> decide

theorem isDigit_ne_minus (c : Char) (h : isDigit c = true) : c ≠ '-' := by
  rintro rfl; revert h; decide

theorem isDigit_ne_plus (c : Char) (h : isDigit c = true) : c ≠ '+' := by
  rintro rfl; revert h; decide

theorem isDigit_not_space (c : Char) (h : isDigit c = true) : isSpace c = false := by
  have h1 : 48 ≤ c.toNat := by
    unfold isDigit at h
    simp at h
    exact h.1
  unfold isSpace
  have a1 : c ≠ ' ' := by rintro rfl; revert h1; decide
  have a2 : c ≠ '\t' := by rintro rfl; revert h1; decide
  have a3 : c ≠ '\r' := by rintro rfl; revert h1; decide
  have a4 : c ≠ '\n' := by rintro rfl; revert h1; decide
  simp [a1, a2, a3, a4]

/-- Reading back the digits `natDigitsAux` writes in front of `acc`. -/
theorem parseUintLoop_natDigitsAux (fuel : Nat) :
    ∀ (n : Nat) (acc : List Char), n < fuel → n ≤ maxUint64 →
      parseUintLoop (natDigitsAux fuel n acc) 0 = parseUintLoop acc n := by
  induction fuel with
  | zero => intro n acc h; omega
  | succ fuel ih =>
    intro n acc hn hmax
    unfold natDigitsAux
    by_cases h10 : n < 10
    · simp only [h10, if_true]
      simp [parseUintLoop, isDigit_digitChar n h10, digitVal_digitChar n h10]
      unfold maxUint64 at *
      omega
    · simp only [h10, if_false]
      have hq : n / 10 < fuel := by omega
      have hqm : n / 10 ≤ maxUint64 := by unfold maxUint64 at *; omega
      rw [ih (n / 10) _ hq hqm]
      have hr : n % 10 < 10 := Nat.mod_lt _ (by decide)
      simp only [parseUintLoop, isDigit_digitChar _ hr, digitVal_digitChar _ hr, if_true]
      have e : n / 10 * 10 + n % 10 = n := by omega
      rw [e]
      unfold maxUint64 at *
      have h1 : ¬ (1844674407370955162 ≤ n / 10) := by omega
      have h2 : ¬ (18446744073709551615 < n) := by omega
      simp [h1, h2]

theorem parseUintLoop_formatNat (n : Nat) (h : n ≤ maxUint64) :
    parseUintLoop (formatNat n) 0 = (n, none) := by
  unfold formatNat
  rw [parseUintLoop_natDigitsAux (n + 1) n [] (by omega) h]
  rfl

/-- The shape of a positive numeral: a leading digit that is not zero, then digits. -/
theorem natDigitsAux_shape (fuel : Nat) :
    ∀ (n : Nat) (acc : List Char), 0 < n → n < fuel →
      ∃ c ds, natDigitsAux fuel n acc = c :: (ds ++ acc) ∧ isDigit c = true ∧ c ≠ '0' ∧
        ∀ x ∈ ds, isDigit x = true := by
  induction fuel with
  | zero => intro n acc _ h; omega
  | succ fuel ih =>
    intro n acc h0 hn
    unfold natDigitsAux
    by_cases h10 : n < 10
    · simp only [h10, if_true]
      exact ⟨digitChar n, [], by simp, isDigit_digitChar n h10, digitChar_ne_zero n h0 h10,
        by simp⟩
    · simp only [h10, if_false]
      obtain ⟨c, ds, e, hc, hc0, hds⟩ :=
        ih (n / 10) (digitChar (n % 10) :: acc) (by omega) (by omega)
      refine ⟨c, ds ++ [digitChar (n % 10)], ?_, hc, hc0, ?_⟩
      · rw [e]; simp
      · intro x hx
        rcases List.mem_append.1 hx with hx | hx
        · exact hds x hx
        · simp at hx
          rw [hx]
          exact isDigit_digitChar _ (Nat.mod_lt _ (by decide))

theorem formatNat_shape (n : Nat) (h0 : 0 < n) :
    ∃ c ds, formatNat n = c :: ds ∧ isDigit c = true ∧ c ≠ '0' ∧ ∀ x ∈ ds, isDigit x = true := by
  obtain ⟨c, ds, e, hc, hc0, hds⟩ := natDigitsAux_shape (n + 1) n [] h0 (by omega)
  exact ⟨c, ds, by simpa [formatNat] using e, hc, hc0, hds⟩

theorem formatNat_zero : formatNat 0 = ['0'] := by decide

/-- Every numeral starts with a digit. -/
theorem formatNat_head (n : Nat) : ∃ c ds, formatNat n = c :: ds ∧ isDigit c = true := by
  rcases Nat.eq_zero_or_pos n with h | h
  · subst h; exact ⟨'0', [], formatNat_zero, by decide⟩
  · obtain ⟨c, ds, e, hc, _, _⟩ := formatNat_shape n h
    exact ⟨c, ds, e, hc⟩

theorem GoInt.wrap_of_range (v : GoInt) (x : Int) (h : v.val = x) : GoInt.wrap x = v := by
  have hlo := v.property.1
  have hhi := v.property.2
  unfold minInt64 at hlo
  unfold maxInt64 at hhi
  apply Subtype.ext
  show (x + 9223372036854775808) % 18446744073709551616 - 9223372036854775808 = v.val
  omega

theorem ParseInt_of_minus (cs : List Char) (n : Nat) (h : ParseUint cs = (n, none))
    (hn : n ≤ 9223372036854775808) (v : GoInt) (hv : v.val = -(n : Int)) :
    ParseInt ('-' :: cs) = (v, none) := by
  unfold ParseInt
  simp only [or_true, if_true, decide_True, h, reduceCtorEq, if_false, if_pos hn,
    GoInt.wrap_of_range v _ hv]

theorem ParseInt_of_digit (c : Char) (cs : List Char) (hc : isDigit c = true) (n : Nat)
    (h : ParseUint (c :: cs) = (n, none)) (hn : n < 9223372036854775808) (v : GoInt)
    (hv : v.val = (n : Int)) : ParseInt (c :: cs) = (v, none) := by
  have c1 := isDigit_ne_minus c hc
  have c2 := isDigit_ne_plus c hc
  unfold ParseInt
  simp only [c1, c2, or_self, if_false, decide_False, h, reduceCtorEq, if_pos hn,
    Bool.false_eq_true, GoInt.wrap_of_range v _ hv]

theorem ParseUint_formatNat (n : Nat) (h : n ≤ maxUint64) : ParseUint (formatNat n) = (n, none) := by
  obtain ⟨c, ds, e, _⟩ := formatNat_head n
  have hp := parseUintLoop_formatNat n h
  rw [e] at hp ⊢
  simpa only [ParseUint] using hp

/-- The round trip of `strconv`: parsing the numeral of an `int` gives it back. -/
theorem ParseInt_FormatInt (v : GoInt) : ParseInt (FormatInt v.val) = (v, none) := by
  have hlo := v.property.1
  have hhi := v.property.2
  unfold minInt64 at hlo
  unfold maxInt64 at hhi
  by_cases hneg : v.val < 0
  · simp only [FormatInt, hneg, if_true]
    exact ParseInt_of_minus _ _ (ParseUint_formatNat _ (by unfold maxUint64; omega)) (by omega) v
      (by omega)
  · simp only [FormatInt, hneg, if_false]
    obtain ⟨c, ds, e, hc⟩ := formatNat_head v.val.toNat
    have hU := ParseUint_formatNat v.val.toNat (by unfold maxUint64; omega)
    rw [e] at hU ⊢
    exact ParseInt_of_digit c ds hc _ hU (by omega) v (by omega)

/-! ## Reading back what `json.Marshal` writes -/

theorem takeDigits_append (ds : List Char) (k : Char) (rest : List Char)
    (hds : ∀ x ∈ ds, isDigit x = true) (hk : isDigit k = false) :
    takeDigits (ds ++ k :: rest) = (ds, k :: rest) := by
  induction ds with
  | nil => simp [takeDigits, hk]
  | cons d ds ih =>
    have hd : isDigit d = true := hds d (by simp)
    have := ih (fun x hx => hds x (by simp [hx]))
    simp [takeDigits, hd, this]

theorem readIntPart_formatNat (n : Nat) (k : Char) (rest : List Char)
    (hk : isDigit k = false) :
    readIntPart (formatNat n ++ k :: rest) = some (formatNat n, k :: rest) := by
  rcases Nat.eq_zero_or_pos n with h | h
  · subst h
    rw [formatNat_zero]
    simp [readIntPart]
  · obtain ⟨c, ds, e, hc, hc0, hds⟩ := formatNat_shape n h
    rw [e]
    simp [readIntPart, hc, hc0, takeDigits_append ds k rest hds hk]

theorem readNumber_FormatInt (v : Int) (k : Char) (rest : List Char) (hk : k = ',' ∨ k = '}') :
    readNumber (FormatInt v ++ k :: rest) = some (FormatInt v, k :: rest) := by
  have hkd : isDigit k = false := by rcases hk with rfl | rfl <;> decide
  have hk1 : k ≠ '.' := by rcases hk with rfl | rfl <;> decide
  have hk2 : k ≠ 'e' := by rcases hk with rfl | rfl <;> decide
  have hk3 : k ≠ 'E' := by rcases hk with rfl | rfl <;> decide
  by_cases hneg : v < 0
  · simp only [FormatInt, hneg, if_true]
    simp [readNumber, readIntPart_formatNat _ k rest hkd, readFraction, readExponent, hk1, hk2,
      hk3]
  · simp only [FormatInt, hneg, if_false]
    obtain ⟨c, ds, e, hc⟩ := formatNat_head v.toNat
    have c1 := isDigit_ne_minus c hc
    have hr := readIntPart_formatNat v.toNat k rest hkd
    rw [e] at hr ⊢
    simp only [List.cons_append] at hr
    simp [readNumber, c1, hr, readFraction, readExponent, hk1, hk2, hk3]

theorem FormatInt_head (v : Int) :
    ∃ c tl, FormatInt v = c :: tl ∧ (c = '-' ∨ isDigit c = true) := by
  by_cases hneg : v < 0
  · exact ⟨'-', formatNat v.natAbs, by simp [FormatInt, hneg], Or.inl rfl⟩
  · obtain ⟨c, ds, e, hc⟩ := formatNat_head v.toNat
    exact ⟨c, ds, by simp [FormatInt, hneg, e], Or.inr hc⟩

theorem hexVal_hexDigit (d : Nat) (h : d < 16) : hexVal (hexDigit d) = some d := by
  interval_cases d <;> decide

theorem combineItems_u16 (n : Nat) (items : List StrItem) (h1 : isHighSurrogate n = false) :
    combineItems (StrItem.u16 n :: items) = unitChar n :: combineItems items := by
  cases items with
  | nil => simp [combineItems]
  | cons it tl =>
    cases it with
    | ch c => simp [combineItems]
    | u16 m => simp [combineItems, h1]

theorem unitChar_small (c : Char) (h : c.toNat < 55296) : unitChar c.toNat = c := by
  have h1 : isHighSurrogate c.toNat = false := by simp [isHighSurrogate]; omega
  have h2 : isLowSurrogate c.toNat = false := by simp [isLowSurrogate]; omega
  simp [unitChar, h1, h2]

theorem readStringItems_raw (c : Char) (cs : List Char) (hc : c ≠ '"') (hc2 : c ≠ '\\')
    (h3 : ¬ c.toNat < 32) :
    readStringItems (c :: cs) =
      match readStringItems cs with
      | none => none
      | some (items, r) => some (StrItem.ch c :: items, r) := by
  rw [readStringItems.eq_def]
  simp [hc, hc2, h3]

theorem readStringItems_short (e : Char) (cs : List Char) (he : e ≠ 'u') :
    readStringItems ('\\' :: e :: cs) =
      match shortEscape e with
      | none => none
      | some x =>
        match readStringItems cs with
        | none => none
        | some (items, r) => some (StrItem.ch x :: items, r) := by
  rw [readStringItems.eq_def]
  simp [he]

theorem readStringItems_unicode (h1 h2 h3 h4 : Char) (cs : List Char) :
    readStringItems ('\\' :: 'u' :: h1 :: h2 :: h3 :: h4 :: cs) =
      match hex4 h1 h2 h3 h4 with
      | none => none
      | some n =>
        match readStringItems cs with
        | none => none
        | some (items, r) => some (StrItem.u16 n :: items, r) := by
  rw [readStringItems.eq_def]
  simp

theorem readStringItems_quote (cs : List Char) : readStringItems ('"' :: cs) = some ([], cs) := by
  rw [readStringItems.eq_def]
  simp

/-- One escaped character reads back as one piece that stands for that character. -/
theorem readStringItems_escapeChar (c : Char) (tail : List Char) (items : List StrItem)
    (r : List Char) (h : readStringItems tail = some (items, r)) :
    ∃ it, readStringItems (escapeChar c ++ tail) = some (it :: items, r) ∧
      ∀ more, combineItems (it :: more) = c :: combineItems more := by
  have sh : ∀ (e x : Char), e ≠ 'u' → shortEscape e = some x →
      readStringItems ('\\' :: e :: tail) = some (StrItem.ch x :: items, r) := by
    intro e x he hx
    rw [readStringItems_short e tail he, hx, h]
  unfold escapeChar
  split_ifs with h1 h2 h3 h4 h5 h6 h7 h8 h9
  · subst h1
    exact ⟨StrItem.ch '"', sh _ _ (by decide) (by decide), by simp [combineItems]⟩
  · subst h2
    exact ⟨StrItem.ch '\\', sh _ _ (by decide) (by decide), by simp [combineItems]⟩
  · have e : Char.ofNat 8 = c := by rw [← h3, Char.ofNat_toNat]
    exact ⟨StrItem.ch (Char.ofNat 8), sh _ _ (by decide) (by decide),
      fun more => by simp only [combineItems]; rw [e]⟩
  · have e : Char.ofNat 12 = c := by rw [← h4, Char.ofNat_toNat]
    exact ⟨StrItem.ch (Char.ofNat 12), sh _ _ (by decide) (by decide),
      fun more => by simp only [combineItems]; rw [e]⟩
  · subst h5
    exact ⟨StrItem.ch '\n', sh _ _ (by decide) (by decide), by simp [combineItems]⟩
  · subst h6
    exact ⟨StrItem.ch '\r', sh _ _ (by decide) (by decide), by simp [combineItems]⟩
  · subst h7
    exact ⟨StrItem.ch '\t', sh _ _ (by decide) (by decide), by simp [combineItems]⟩
  · have hlt : c.toNat < 64 := by
      rcases h8 with h8 | rfl | rfl | rfl
      · omega
      · decide
      · decide
      · decide
    have hq : c.toNat / 16 < 16 := by omega
    have hm : c.toNat % 16 < 16 := by omega
    refine ⟨StrItem.u16 c.toNat, ?_, ?_⟩
    · have e : ((0 * 16 + 0) * 16 + c.toNat / 16) * 16 + c.toNat % 16 = c.toNat := by omega
      have z : hexVal '0' = some 0 := by decide
      show readStringItems ('\\' :: 'u' :: '0' :: '0' :: hexDigit (c.toNat / 16) ::
        hexDigit (c.toNat % 16) :: tail) = _
      rw [readStringItems_unicode]
      simp only [hex4, z, hexVal_hexDigit _ hq, hexVal_hexDigit _ hm, h, e]
    · intro more
      rw [combineItems_u16 _ _ (by simp [isHighSurrogate]; omega), unitChar_small c (by omega)]
  · have hm : c.toNat % 16 < 16 := by omega
    refine ⟨StrItem.u16 c.toNat, ?_, ?_⟩
    · have z0 : hexVal '0' = some 0 := by decide
      have z2 : hexVal '2' = some 2 := by decide
      have e : ((2 * 16 + 0) * 16 + 2) * 16 + c.toNat % 16 = c.toNat := by omega
      show readStringItems ('\\' :: 'u' :: '2' :: '0' :: '2' ::
        hexDigit (c.toNat % 16) :: tail) = _
      rw [readStringItems_unicode]
      simp only [hex4, z0, z2, hexVal_hexDigit _ hm, h, e]
    · intro more
      rw [combineItems_u16 _ _ (by simp [isHighSurrogate]; omega), unitChar_small c (by omega)]
  · have hge : ¬ c.toNat < 32 := by
      intro hlt; exact h8 (Or.inl hlt)
    refine ⟨StrItem.ch c, ?_, by simp [combineItems]⟩
    show readStringItems (c :: tail) = _
    rw [readStringItems_raw c tail h1 h2 hge, h]

theorem readStringItems_escapeInto (s rest : List Char) :
    ∃ items, readStringItems (escapeInto s rest) = some (items, rest) ∧
      combineItems items = s := by
  induction s with
  | nil => exact ⟨[], by simp [escapeInto, readStringItems_quote], by simp [combineItems]⟩
  | cons c cs ih =>
    obtain ⟨items, h, hc⟩ := ih
    obtain ⟨it, h2, hc2⟩ := readStringItems_escapeChar c _ items rest h
    exact ⟨it :: items, by simpa [escapeInto] using h2, by rw [hc2, hc]⟩

/-- The round trip of a string literal. -/
theorem readString_escapeInto (s rest : List Char) :
    readString (escapeInto s rest) = some (s, rest) := by
  obtain ⟨items, h, hc⟩ := readStringItems_escapeInto s rest
  simp [readString, h, hc]

theorem skipSpace_cons (c : Char) (cs : List Char) (h : isSpace c = false) :
    skipSpace (c :: cs) = c :: cs := by
  simp [skipSpace, h]

theorem parseValue_string (f d : Nat) (s rest : List Char) :
    parseValue (f + 1) d (encodeString s rest) = Except.ok (JVal.str s, rest) := by
  have hs : isSpace '"' = false := by decide
  have hd : isDigit '"' = false := by decide
  have hm : ('"' : Char) ≠ '-' := by decide
  unfold encodeString
  rw [parseValue, skipSpace_cons _ _ hs]
  simp only [hm, hd, Bool.false_eq_true, or_self, if_false, if_true, readString_escapeInto]

theorem parseValue_int (f d : Nat) (v : Int) (k : Char) (rest : List Char) (hk : k = ',' ∨ k = '}') :
    parseValue (f + 1) d (FormatInt v ++ k :: rest) =
      Except.ok (JVal.num (FormatInt v), k :: rest) := by
  obtain ⟨c, tl, e, hc⟩ := FormatInt_head v
  have hr := readNumber_FormatInt v k rest hk
  rw [e] at hr ⊢
  have hs : isSpace c = false := by
    rcases hc with rfl | hc
    · decide
    · exact isDigit_not_space c hc
  simp only [List.cons_append] at hr ⊢
  rw [parseValue, skipSpace_cons _ _ hs]
  simp only [hc, if_true, hr]

/-- One member of an object followed by a comma: the reader goes on with the next member. -/
theorem parseMembers_comma (f d : Nat) (key x y : List Char) (v : JVal)
    (acc : List (List Char × JVal))
    (hv : parseValue f d x = Except.ok (v, ',' :: y)) :
    parseMembers (f + 1) d (encodeString key (':' :: x)) acc =
      parseMembers f d y (acc ++ [(key, v)]) := by
  have hs : isSpace '"' = false := by decide
  have h1 : isSpace ':' = false := by decide
  have h2 : isSpace ',' = false := by decide
  unfold encodeString
  rw [parseMembers, skipSpace_cons _ _ hs]
  simp only [if_true, readString_escapeInto, skipSpace_cons _ _ h1, hv, skipSpace_cons _ _ h2]

/-- The last member of an object, followed by the closing brace. -/
theorem parseMembers_close (f d : Nat) (key x y : List Char) (v : JVal)
    (acc : List (List Char × JVal))
    (hv : parseValue f d x = Except.ok (v, '}' :: y)) :
    parseMembers (f + 1) d (encodeString key (':' :: x)) acc =
      Except.ok (JVal.obj (acc ++ [(key, v)]), y) := by
  have hs : isSpace '"' = false := by decide
  have h1 : isSpace ':' = false := by decide
  have h2 : isSpace '}' = false := by decide
  have h3 : ('}' : Char) ≠ ',' := by decide
  unfold encodeString
  rw [parseMembers, skipSpace_cons _ _ hs]
  simp only [if_true, readString_escapeInto, skipSpace_cons _ _ h1, hv, skipSpace_cons _ _ h2,
    h3, if_false]

/-- Reading back the object `json.Marshal` writes for a user. -/
theorem parseValue_encodeUser (f d : Nat) (hd : d < maxNestingDepth) (u : User)
    (rest : List Char) :
    parseValue (f + 6) d (encodeUser u rest) =
      Except.ok (u.toJVal, rest) := by
  have hs : isSpace '{' = false := by decide
  have hq : isSpace '"' = false := by decide
  have b1 : ('{' : Char) ≠ '-' := by decide
  have b2 : isDigit '{' = false := by decide
  have b3 : ('{' : Char) ≠ '"' := by decide
  have b4 : ('"' : Char) ≠ '}' := by decide
  have hdepth : ¬ maxNestingDepth ≤ d := by omega
  unfold encodeUser
  rw [parseValue, skipSpace_cons _ _ hs]
  simp only [b1, b2, b3, Bool.false_eq_true, or_self, if_false, if_true, hdepth]
  rw [show encodeString "id".data (':' :: (FormatInt u.ID.val ++ (',' ::
      encodeString "name".data (':' :: encodeString u.Name.data (',' ::
      encodeString "email".data (':' :: encodeString u.Email.data (',' ::
      encodeString "age".data (':' :: (FormatInt u.Age.val ++ ('}' :: rest)))))))))) =
      '"' :: escapeInto "id".data (':' :: (FormatInt u.ID.val ++ (',' ::
      encodeString "name".data (':' :: encodeString u.Name.data (',' ::
      encodeString "email".data (':' :: encodeString u.Email.data (',' ::
      encodeString "age".data (':' :: (FormatInt u.Age.val ++ ('}' :: rest)))))))))) from rfl,
    skipSpace_cons _ _ hq]
  simp only [b4, if_false]
  rw [show ('"' :: escapeInto "id".data (':' :: (FormatInt u.ID.val ++ (',' ::
      encodeString "name".data (':' :: encodeString u.Name.data (',' ::
      encodeString "email".data (':' :: encodeString u.Email.data (',' ::
      encodeString "age".data (':' :: (FormatInt u.Age.val ++ ('}' :: rest))))))))))) =
      encodeString "id".data (':' :: (FormatInt u.ID.val ++ (',' ::
      encodeString "name".data (':' :: encodeString u.Name.data (',' ::
      encodeString "email".data (':' :: encodeString u.Email.data (',' ::
      encodeString "age".data (':' :: (FormatInt u.Age.val ++ ('}' :: rest)))))))))) from rfl]
  rw [parseMembers_comma (f + 4) (d + 1) _ _ _ _ _
        (parseValue_int (f + 3) (d + 1) _ ',' _ (Or.inl rfl)),
    parseMembers_comma (f + 3) (d + 1) _ _ _ _ _ (parseValue_string (f + 2) (d + 1) _ _),
    parseMembers_comma (f + 2) (d + 1) _ _ _ _ _ (parseValue_string (f + 1) (d + 1) _ _),
    parseMembers_close (f + 1) (d + 1) _ _ _ _ _
        (parseValue_int f (d + 1) _ '}' _ (Or.inr rfl))]
  rfl

theorem escapeInto_length (s rest : List Char) : rest.length < (escapeInto s rest).length := by
  induction s with
  | nil => simp [escapeInto]
  | cons c cs ih => simp only [escapeInto, List.length_append]; omega

theorem encodeUser_length (u : User) (rest : List Char) :
    rest.length + 5 ≤ (encodeUser u rest).length := by
  unfold encodeUser encodeString
  simp only [List.length_cons, List.length_append]
  have h1 := escapeInto_length "age".data (':' :: (FormatInt u.Age.val ++ ('}' :: rest)))
  have h2 := escapeInto_length u.Email.data (',' :: '"' :: escapeInto "age".data
    (':' :: (FormatInt u.Age.val ++ ('}' :: rest))))
  have h3 := escapeInto_length "email".data (':' :: '"' :: escapeInto u.Email.data
    (',' :: '"' :: escapeInto "age".data (':' :: (FormatInt u.Age.val ++ ('}' :: rest)))))
  have h4 := escapeInto_length u.Name.data (',' :: '"' :: escapeInto "email".data
    (':' :: '"' :: escapeInto u.Email.data
    (',' :: '"' :: escapeInto "age".data (':' :: (FormatInt u.Age.val ++ ('}' :: rest))))))
  have h5 := escapeInto_length "name".data (':' :: '"' :: escapeInto u.Name.data
    (',' :: '"' :: escapeInto "email".data
    (':' :: '"' :: escapeInto u.Email.data
    (',' :: '"' :: escapeInto "age".data (':' :: (FormatInt u.Age.val ++ ('}' :: rest)))))))
  have h6 := escapeInto_length "id".data (':' :: (FormatInt u.ID.val ++ (',' :: '"' ::
    escapeInto "name".data (':' :: '"' :: escapeInto u.Name.data
    (',' :: '"' :: escapeInto "email".data
    (':' :: '"' :: escapeInto u.Email.data
    (',' :: '"' :: escapeInto "age".data (':' :: (FormatInt u.Age.val ++ ('}' :: rest))))))))))
  simp only [List.length_cons, List.length_append] at h1 h2 h3 h4 h5 h6
  omega

theorem String_mk_data (s : String) : String.mk s.data = s := rfl

/-- Filling a zero user from the object of `u` gives `u`. -/
theorem decodeUser_object (u : User) :
    decodeUser User.zero u.toJVal = Except.ok u := by
  have k1 : fieldOfKey "id".data = some UserField.id := by decide
  have k2 : fieldOfKey "name".data = some UserField.name := by decide
  have k3 : fieldOfKey "email".data = some UserField.email := by decide
  have k4 : fieldOfKey "age".data = some UserField.age := by decide
  unfold User.toJVal
  simp only [decodeUser, decodeMembers, k1, k2, k3, k4, setField, decodeInt, decodeStr,
    ParseInt_FormatInt, Except.map, String_mk_data]

/-- The round trip of `encoding/json` on a `User`: `json.Unmarshal` of what `json.Marshal`
wrote succeeds and gives the same user. -/
theorem unmarshalUser_marshalUser (u : User) : unmarshalUser (marshalUser u) = Except.ok u := by
  have hl := encodeUser_length u []
  simp only [List.length_nil] at hl
  obtain ⟨f, hf⟩ : ∃ f, 2 * (encodeUser u []).length + 1 = f + 6 :=
    ⟨2 * (encodeUser u []).length - 5, by omega⟩
  have hp := parseValue_encodeUser f 0 (by decide) u []
  unfold unmarshalUser marshalUser parseJSON
  simp only [hf, hp, skipSpace]
  exact decodeUser_object u

/-! ### Slices -/

theorem encodeUserTail_length (us : List User) (rest : List Char) :
    us.length + 1 ≤ (encodeUserTail us rest).length := by
  induction us with
  | nil => simp [encodeUserTail]
  | cons u us ih =>
    have h := encodeUser_length u (encodeUserTail us rest)
    simp only [encodeUserTail, List.length_cons]
    omega

/-- Reading back the elements of a non-empty array of users. -/
theorem parseElements_encodeUsers (d : Nat) (hd : d < maxNestingDepth) (rest : List Char)
    (us : List User) :
    ∀ (f : Nat) (u : User) (acc : List JVal),
      parseElements (f + us.length + 7) d (encodeUser u (encodeUserTail us rest)) acc =
        Except.ok (JVal.arr (acc ++ (u :: us).map User.toJVal), rest) := by
  have h1 : isSpace ']' = false := by decide
  have h2 : isSpace ',' = false := by decide
  have h3 : (']' : Char) ≠ ',' := by decide
  induction us with
  | nil =>
    intro f u acc
    show parseElements (f + 6 + 1) d (encodeUser u (']' :: rest)) acc = _
    rw [parseElements, parseValue_encodeUser f d hd u]
    simp only [skipSpace_cons _ _ h1, h3, if_false, if_true, List.map]
  | cons u2 us ih =>
    intro f u acc
    show parseElements ((f + us.length + 1) + 6 + 1) d
      (encodeUser u (',' :: encodeUser u2 (encodeUserTail us rest))) acc = _
    rw [parseElements, parseValue_encodeUser (f + us.length + 1) d hd u]
    simp only [skipSpace_cons _ _ h2, if_true]
    rw [show f + us.length + 1 + 6 = f + us.length + 7 from by omega, ih f u2 (acc ++ [u.toJVal])]
    simp

theorem decodeElements_toJVal (us : List User) :
    decodeElements (us.map User.toJVal) = Except.ok us := by
  induction us with
  | nil => rfl
  | cons u us ih => simp only [List.map, decodeElements, decodeUser_object, ih]

/-- The round trip of `encoding/json` on a `[]User`, nil or not. -/
theorem unmarshalUsers_marshalUsers (s : UserSlice) :
    unmarshalUsers (marshalUsers s) = Except.ok s := by
  cases s with
  | none => decide
  | some us =>
    cases us with
    | nil => decide
    | cons u us =>
      have hl := encodeUser_length u (encodeUserTail us [])
      have ht := encodeUserTail_length us []
      obtain ⟨f, hf⟩ : ∃ f,
          2 * (encodeUserList (u :: us) []).length + 1 = (f + us.length + 7) + 1 :=
        ⟨2 * (encodeUser u (encodeUserTail us [])).length + 2 - (us.length + 7), by
          simp only [encodeUserList, List.length_cons]; omega⟩
      have hs : isSpace '[' = false := by decide
      have hb : isSpace '\x7b' = false := by decide
      have b1 : ('[' : Char) ≠ '-' := by decide
      have b2 : isDigit '[' = false := by decide
      have b3 : ('[' : Char) ≠ '"' := by decide
      have b4 : ('[' : Char) ≠ '\x7b' := by decide
      have b5 : ('\x7b' : Char) ≠ ']' := by decide
      have hdepth : ¬ maxNestingDepth ≤ 0 := by decide
      have hp := parseElements_encodeUsers 1 (by decide) [] us f u []
      have he : ∀ r, skipSpace (encodeUser u r) = encodeUser u r := fun r => skipSpace_cons _ _ hb
      have hk : ∀ r, ∃ tl, encodeUser u r = '\x7b' :: tl := fun r => ⟨_, rfl⟩
      unfold unmarshalUsers marshalUsers parseJSON
      simp only [hf]
      show (match (match parseValue ((f + us.length + 7) + 1) 0
        ('[' :: encodeUser u (encodeUserTail us [])) with
        | Except.error e => Except.error e
        | Except.ok (v, r) =>
          match skipSpace r with
          | [] => Except.ok v
          | _ :: _ => Except.error JsonError.malformed) with
        | Except.error e => Except.error e
        | Except.ok v => decodeUsers v) = _
      rw [parseValue, skipSpace_cons _ _ hs]
      simp only [b1, b2, b3, b4, Bool.false_eq_true, or_self, if_false, if_true, hdepth, he]
      obtain ⟨tl, htl⟩ := hk (encodeUserTail us [])
      rw [htl] at hp ⊢
      simp only [b5, if_false, hp, List.nil_append, skipSpace, decodeUsers,
        decodeElements_toJVal, Except.map]

/-! ## The reader never runs out of fuel -/

theorem skipSpace_length (cs : List Char) : (skipSpace cs).length ≤ cs.length := by
  induction cs with
  | nil => simp [skipSpace]
  | cons c cs ih =>
    unfold skipSpace
    split_ifs
    · simp only [List.length_cons]; omega
    · exact Nat.le_refl _

theorem skipSpace_cons_length (cs r : List Char) (c : Char) (h : skipSpace cs = c :: r) :
    r.length < cs.length := by
  have := skipSpace_length cs
  rw [h] at this
  simp only [List.length_cons] at this
  omega

theorem readStringItems_length (n : Nat) :
    ∀ (cs : List Char) (items : List StrItem) (r : List Char), cs.length ≤ n →
      readStringItems cs = some (items, r) → r.length < cs.length := by
  induction n with
  | zero =>
    intro cs items r hn h
    cases cs with
    | nil => rw [readStringItems.eq_def] at h; simp at h
    | cons c cs => simp at hn
  | succ n ih =>
    intro cs items r hn h
    rw [readStringItems.eq_def] at h
    split at h
    · simp at h
    · rename_i c cs0
      simp only [List.length_cons] at hn ⊢
      split_ifs at h with h1 h2 h3
      · simp only [Option.some.injEq, Prod.mk.injEq] at h
        rw [← h.2]; omega
      · split at h
        · simp at h
        · rename_i e cs1
          simp only [List.length_cons] at hn ⊢
          split_ifs at h with h4
          · split at h
            · rename_i a b c2 d cs2
              simp only [List.length_cons] at hn ⊢
              split at h
              · simp at h
              · split at h
                · simp at h
                · rename_i items2 r2 heq
                  simp only [Option.some.injEq, Prod.mk.injEq] at h
                  have := ih cs2 items2 r2 (by omega) heq
                  rw [← h.2]; omega
            · simp at h
          · split at h
            · simp at h
            · split at h
              · simp at h
              · rename_i items2 r2 heq
                simp only [Option.some.injEq, Prod.mk.injEq] at h
                have := ih cs1 items2 r2 (by omega) heq
                rw [← h.2]; omega
      · split at h
        · simp at h
        · rename_i items2 r2 heq
          simp only [Option.some.injEq, Prod.mk.injEq] at h
          have := ih cs0 items2 r2 (by omega) heq
          rw [← h.2]; omega

theorem readString_length (cs s r : List Char) (h : readString cs = some (s, r)) :
    r.length < cs.length := by
  unfold readString at h
  split at h
  · simp at h
  · rename_i items r2 heq
    simp only [Option.some.injEq, Prod.mk.injEq] at h
    rw [← h.2]
    exact readStringItems_length cs.length cs items r2 (Nat.le_refl _) heq

theorem takeDigits_length (cs : List Char) : (takeDigits cs).2.length ≤ cs.length := by
  induction cs with
  | nil => simp [takeDigits]
  | cons c cs ih =>
    unfold takeDigits
    split_ifs
    · simp only [List.length_cons]; omega
    · exact Nat.le_refl _

theorem readIntPart_length (cs ip r : List Char) (h : readIntPart cs = some (ip, r)) :
    r.length < cs.length := by
  cases cs with
  | nil => simp [readIntPart] at h
  | cons c cs =>
    have := takeDigits_length cs
    unfold readIntPart at h
    dsimp only at h
    simp only [List.length_cons]
    split_ifs at h
    · simp only [Option.some.injEq, Prod.mk.injEq] at h
      rw [← h.2]; omega
    · simp only [Option.some.injEq, Prod.mk.injEq] at h
      rw [← h.2]; omega

theorem readFraction_length (cs fp r : List Char) (h : readFraction cs = some (fp, r)) :
    r.length ≤ cs.length := by
  cases cs with
  | nil =>
    simp only [readFraction, Option.some.injEq, Prod.mk.injEq] at h
    rw [← h.2]
  | cons c cs =>
    have := takeDigits_length cs
    unfold readFraction at h
    dsimp only at h
    simp only [List.length_cons]
    split_ifs at h
    · simp only [Option.some.injEq, Prod.mk.injEq] at h
      rw [← h.2]; omega
    · simp only [Option.some.injEq, Prod.mk.injEq] at h
      rw [← h.2]; simp

theorem readExpDigits_length (mark cs ep r : List Char)
    (h : readExpDigits mark cs = some (ep, r)) : r.length ≤ cs.length := by
  have := takeDigits_length cs
  unfold readExpDigits at h
  split_ifs at h
  simp only [Option.some.injEq, Prod.mk.injEq] at h
  rw [← h.2]; omega

theorem readExponent_length (cs ep r : List Char) (h : readExponent cs = some (ep, r)) :
    r.length ≤ cs.length := by
  cases cs with
  | nil =>
    simp only [readExponent, Option.some.injEq, Prod.mk.injEq] at h
    rw [← h.2]
  | cons c cs =>
    unfold readExponent at h
    dsimp only at h
    simp only [List.length_cons]
    split_ifs at h
    · cases cs with
      | nil => simp at h
      | cons s cs1 =>
        simp only [List.length_cons]
        dsimp only at h
        split_ifs at h
        · have := readExpDigits_length _ _ _ _ h
          omega
        · have := readExpDigits_length _ _ _ _ h
          simp only [List.length_cons] at this
          omega
    · simp only [Option.some.injEq, Prod.mk.injEq] at h
      rw [← h.2]; simp

theorem readNumber_length (cs lit r : List Char) (h : readNumber cs = some (lit, r)) :
    r.length < cs.length := by
  unfold readNumber at h
  dsimp only at h
  split at h
  · simp at h
  · rename_i ip r1 h1
    split at h
    · simp at h
    · rename_i fp r2 h2
      split at h
      · simp at h
      · rename_i ep r3 h3
        simp only [Option.some.injEq, Prod.mk.injEq] at h
        have a1 := readIntPart_length _ _ _ h1
        have a2 := readFraction_length _ _ _ h2
        have a3 := readExponent_length _ _ _ h3
        rw [← h.2]
        have hb : (match cs with
            | [] => []
            | c :: r => if c = '-' then r else c :: r).length ≤ cs.length := by
          cases cs with
          | nil => simp
          | cons c r =>
            dsimp only
            split_ifs <;> simp
        omega

theorem dropLiteral_length (lit cs r : List Char) (h : dropLiteral lit cs = some r) :
    r.length ≤ cs.length := by
  induction lit generalizing cs with
  | nil =>
    simp only [dropLiteral, Option.some.injEq] at h
    rw [h]
  | cons l ls ih =>
    cases cs with
    | nil => simp [dropLiteral] at h
    | cons c cs =>
      unfold dropLiteral at h
      split_ifs at h
      have := ih cs h
      simp only [List.length_cons]
      omega

/-- What the three readers consume: each returns a remainder shorter than its input. -/
theorem parse_length (f : Nat) :
    (∀ d cs v r, parseValue f d cs = Except.ok (v, r) → r.length < cs.length) ∧
    (∀ d cs acc v r, parseMembers f d cs acc = Except.ok (v, r) → r.length < cs.length) ∧
    (∀ d cs acc v r, parseElements f d cs acc = Except.ok (v, r) → r.length < cs.length) := by
  induction f with
  | zero =>
    refine ⟨?_, ?_, ?_⟩
    · intro d cs v r h; rw [parseValue] at h; simp at h
    · intro d cs acc v r h; rw [parseMembers] at h; simp at h
    · intro d cs acc v r h; rw [parseElements] at h; simp at h
  | succ f ih =>
    obtain ⟨ihV, ihM, ihE⟩ := ih
    refine ⟨?_, ?_, ?_⟩
    · intro d cs v r h
      rw [parseValue] at h
      cases hs : skipSpace cs with
      | nil => simp [hs] at h
      | cons c rest =>
        have hl := skipSpace_cons_length cs rest c hs
        simp only [hs] at h
        split_ifs at h with h1 h2 h3 h4 h5 h6 h7 h8
        · cases hn : readNumber (c :: rest) with
          | none => simp [hn] at h
          | some p =>
            obtain ⟨lit, r2⟩ := p
            simp only [hn, Except.ok.injEq, Prod.mk.injEq] at h
            have := readNumber_length _ _ _ hn
            simp only [List.length_cons] at this
            rw [← h.2]; omega
        · cases hn : readString rest with
          | none => simp [hn] at h
          | some p =>
            obtain ⟨s, r2⟩ := p
            simp only [hn, Except.ok.injEq, Prod.mk.injEq] at h
            have := readString_length _ _ _ hn
            rw [← h.2]; omega
        · cases hk : skipSpace rest with
          | nil => simp [hk] at h
          | cons k r3 =>
            have hl2 := skipSpace_cons_length rest r3 k hk
            simp only [hk] at h
            split_ifs at h with h9
            · simp only [Except.ok.injEq, Prod.mk.injEq] at h
              rw [← h.2]; omega
            · have := ihM _ _ _ _ _ h
              simp only [List.length_cons] at this
              omega
        · cases hk : skipSpace rest with
          | nil => simp [hk] at h
          | cons k r3 =>
            have hl2 := skipSpace_cons_length rest r3 k hk
            simp only [hk] at h
            split_ifs at h with h9
            · simp only [Except.ok.injEq, Prod.mk.injEq] at h
              rw [← h.2]; omega
            · have := ihE _ _ _ _ _ h
              simp only [List.length_cons] at this
              omega
        · cases hn : dropLiteral ['r', 'u', 'e'] rest with
          | none => simp [hn] at h
          | some r2 =>
            simp only [hn, Except.ok.injEq, Prod.mk.injEq] at h
            have := dropLiteral_length _ _ _ hn
            rw [← h.2]; omega
        · cases hn : dropLiteral ['a', 'l', 's', 'e'] rest with
          | none => simp [hn] at h
          | some r2 =>
            simp only [hn, Except.ok.injEq, Prod.mk.injEq] at h
            have := dropLiteral_length _ _ _ hn
            rw [← h.2]; omega
        · cases hn : dropLiteral ['u', 'l', 'l'] rest with
          | none => simp [hn] at h
          | some r2 =>
            simp only [hn, Except.ok.injEq, Prod.mk.injEq] at h
            have := dropLiteral_length _ _ _ hn
            rw [← h.2]; omega
    · intro d cs acc v r h
      rw [parseMembers] at h
      cases hs : skipSpace cs with
      | nil => simp [hs] at h
      | cons q r0 =>
        have hl := skipSpace_cons_length cs r0 q hs
        simp only [hs] at h
        split_ifs at h with h1
        cases hk : readString r0 with
        | none => simp [hk] at h
        | some p =>
          obtain ⟨key, r1⟩ := p
          have hl1 := readString_length _ _ _ hk
          simp only [hk] at h
          cases hc : skipSpace r1 with
          | nil => simp [hc] at h
          | cons colon r2 =>
            have hl2 := skipSpace_cons_length r1 r2 colon hc
            simp only [hc] at h
            split_ifs at h with h2
            cases hv : parseValue f d r2 with
            | error e => simp [hv] at h
            | ok p =>
              obtain ⟨v1, r3⟩ := p
              have hl3 := ihV _ _ _ _ hv
              simp only [hv] at h
              cases hsep : skipSpace r3 with
              | nil => simp [hsep] at h
              | cons sep r4 =>
                have hl4 := skipSpace_cons_length r3 r4 sep hsep
                simp only [hsep] at h
                split_ifs at h with h3 h4
                · have := ihM _ _ _ _ _ h
                  omega
                · simp only [Except.ok.injEq, Prod.mk.injEq] at h
                  rw [← h.2]; omega
    · intro d cs acc v r h
      rw [parseElements] at h
      cases hv : parseValue f d cs with
      | error e => simp [hv] at h
      | ok p =>
        obtain ⟨v1, r1⟩ := p
        have hl1 := ihV _ _ _ _ hv
        simp only [hv] at h
        cases hsep : skipSpace r1 with
        | nil => simp [hsep] at h
        | cons sep r2 =>
          have hl2 := skipSpace_cons_length r1 r2 sep hsep
          simp only [hsep] at h
          split_ifs at h with h3 h4
          · have := ihE _ _ _ _ _ h
            omega
          · simp only [Except.ok.injEq, Prod.mk.injEq] at h
            rw [← h.2]; omega

/-- With fuel above twice the length of the input, no reader stops for lack of fuel. -/
theorem parse_fuel (f : Nat) :
    (∀ d cs, 2 * cs.length + 1 ≤ f → parseValue f d cs ≠ Except.error JsonError.outOfFuel) ∧
    (∀ d cs acc, 2 * cs.length + 1 ≤ f →
      parseMembers f d cs acc ≠ Except.error JsonError.outOfFuel) ∧
    (∀ d cs acc, 2 * cs.length + 2 ≤ f →
      parseElements f d cs acc ≠ Except.error JsonError.outOfFuel) := by
  induction f with
  | zero =>
    refine ⟨?_, ?_, ?_⟩
    · intro d cs h; omega
    · intro d cs acc h; omega
    · intro d cs acc h; omega
  | succ f ih =>
    obtain ⟨ihV, ihM, ihE⟩ := ih
    refine ⟨?_, ?_, ?_⟩
    · intro d cs hf
      rw [parseValue]
      cases hs : skipSpace cs with
      | nil => simp
      | cons c rest =>
        have hl := skipSpace_cons_length cs rest c hs
        dsimp only
        split_ifs with h1 h2 h3 h4 h5 h6 h7 h8
        · cases readNumber (c :: rest) with
          | none => simp
          | some p => simp
        · cases readString rest with
          | none => simp
          | some p => simp
        · simp
        · cases hk : skipSpace rest with
          | nil => simp
          | cons k r3 =>
            have hl2 := skipSpace_cons_length rest r3 k hk
            dsimp only
            split_ifs with h9
            · simp
            · exact ihM _ _ _ (by simp only [List.length_cons]; omega)
        · simp
        · cases hk : skipSpace rest with
          | nil => simp
          | cons k r3 =>
            have hl2 := skipSpace_cons_length rest r3 k hk
            dsimp only
            split_ifs with h9
            · simp
            · exact ihE _ _ _ (by simp only [List.length_cons]; omega)
        · cases dropLiteral ['r', 'u', 'e'] rest with
          | none => simp
          | some p => simp
        · cases dropLiteral ['a', 'l', 's', 'e'] rest with
          | none => simp
          | some p => simp
        · cases dropLiteral ['u', 'l', 'l'] rest with
          | none => simp
          | some p => simp
        · simp
    · intro d cs acc hf
      rw [parseMembers]
      cases hs : skipSpace cs with
      | nil => simp
      | cons q r0 =>
        have hl := skipSpace_cons_length cs r0 q hs
        dsimp only
        split_ifs with h1
        · cases hk : readString r0 with
          | none => simp
          | some p =>
            obtain ⟨key, r1⟩ := p
            have hl1 := readString_length _ _ _ hk
            dsimp only
            cases hc : skipSpace r1 with
            | nil => simp
            | cons colon r2 =>
              have hl2 := skipSpace_cons_length r1 r2 colon hc
              dsimp only
              split_ifs with h2
              · cases hv : parseValue f d r2 with
                | error e =>
                  have := ihV d r2 (by omega)
                  rw [hv] at this
                  simpa using this
                | ok p =>
                  obtain ⟨v1, r3⟩ := p
                  have hl3 := (parse_length f).1 _ _ _ _ hv
                  dsimp only
                  cases hsep : skipSpace r3 with
                  | nil => simp
                  | cons sep r4 =>
                    have hl4 := skipSpace_cons_length r3 r4 sep hsep
                    dsimp only
                    split_ifs with h3 h4
                    · exact ihM _ _ _ (by omega)
                    · simp
                    · simp
              · simp
        · simp
    · intro d cs acc hf
      rw [parseElements]
      cases hv : parseValue f d cs with
      | error e =>
        have := ihV d cs (by omega)
        rw [hv] at this
        simpa using this
      | ok p =>
        obtain ⟨v1, r1⟩ := p
        have hl1 := (parse_length f).1 _ _ _ _ hv
        dsimp only
        cases hsep : skipSpace r1 with
        | nil => simp
        | cons sep r2 =>
          have hl2 := skipSpace_cons_length r1 r2 sep hsep
          dsimp only
          split_ifs with h3 h4
          · exact ihE _ _ _ (by omega)
          · simp
          · simp

/-- The fuel `parseJSON` gives the reader is enough: it never fails for lack of fuel, so an
error of `json.Unmarshal` in this model is a malformed text or a value of the wrong type. -/
theorem parseJSON_fuel_adequate (cs : List Char) :
    parseJSON cs ≠ Except.error JsonError.outOfFuel := by
  unfold parseJSON
  cases hv : parseValue (2 * cs.length + 1) 0 cs with
  | error e =>
    have := (parse_fuel (2 * cs.length + 1)).1 0 cs (Nat.le_refl _)
    rw [hv] at this
    simpa using this
  | ok p =>
    obtain ⟨v, r⟩ := p
    dsimp only
    cases skipSpace r <;> simp

/-! ## The handlers -/

theorem userKey_ne_users (id : String) : userKey id ≠ "users" := by
  intro h
  have h2 := congrArg String.data h
  simp [userKey] at h2

theorem GetUserByIDHandler_of_miss (idEq : String → GoInt → Bool) (db : Database)
    (rc : RedisClient) (f : Faults) (id : String) (h : userCacheHit rc f id = false) :
    GetUserByIDHandler idEq db rc f id = getUserByIDFromStore idEq db rc f id := by
  unfold userCacheHit at h
  unfold GetUserByIDHandler
  cases hg : rc.Get f.cacheGetErr (userKey id) with
  | none => rfl
  | some s =>
    cases hu : unmarshalUser s with
    | error e => simp only [hu]
    | ok u => simp [hg, hu] at h

theorem GetUsersHandler_of_miss (db : Database) (rc : RedisClient) (f : Faults)
    (h : listCacheHit rc f = false) : GetUsersHandler db rc f = getUsersFromStore db rc f := by
  unfold listCacheHit at h
  unfold GetUsersHandler
  cases hg : rc.Get f.cacheGetErr "users" with
  | none => rfl
  | some s =>
    cases hu : unmarshalUsers s with
    | error e => simp only [hu]
    | ok u => simp [hg, hu] at h

theorem userCacheHit_of_absent (rc : RedisClient) (f : Faults) (id : String)
    (h : rc.data (userKey id) = none) : userCacheHit rc f id = false := by
  unfold userCacheHit RedisClient.Get
  by_cases hf : f.cacheGetErr = true <;> simp [hf, h]

theorem userCacheHit_of_getErr (rc : RedisClient) (f : Faults) (id : String)
    (h : f.cacheGetErr = true) : userCacheHit rc f id = false := by
  unfold userCacheHit RedisClient.Get
  simp [h]

theorem listCacheHit_of_getErr (rc : RedisClient) (f : Faults)
    (h : f.cacheGetErr = true) : listCacheHit rc f = false := by
  unfold listCacheHit RedisClient.Get
  simp [h]

theorem listCacheHit_of_absent (rc : RedisClient) (f : Faults)
    (h : rc.data "users" = none) : listCacheHit rc f = false := by
  unfold listCacheHit RedisClient.Get
  by_cases hf : f.cacheGetErr = true <;> simp [hf, h]

/-- The outcome of a read by id that misses the cache and finds the row. -/
theorem GetUserByIDHandler_store_row (idEq : String → GoInt → Bool) (db : Database)
    (rc : RedisClient) (f : Faults) (id : String) (u : User)
    (hmiss : rc.data (userKey id) = none)
    (hrow : db.rows.find? (fun r => idEq id r.ID) = some u) (hstore : f.storeErr = false) :
    GetUserByIDHandler idEq db rc f id =
      ⟨⟨200, ⟨"00", "Success", Payload.user u⟩⟩, db,
        rc.Set f.cacheSetErr (userKey id) (marshalUser u) tenMinutes⟩ := by
  rw [GetUserByIDHandler_of_miss idEq db rc f id (userCacheHit_of_absent rc f id hmiss)]
  simp only [getUserByIDFromStore, Database.QueryRowByID, hstore, hrow, Bool.false_eq_true,
    if_false]

/-- C3: Cache-then-store fallback. When `user:<id>` is absent from the cache and the store
has the row, `GetUserByIDHandler` answers 200 / "00" / "Success" with the store's row, leaves
the store as it is, leaves `user:<id>` holding `json.Marshal` of that row with a ten-minute
expiry, and leaves every other key as it was. -/
theorem readByID_miss_populates_cache (idEq : String → GoInt → Bool) (db : Database)
    (rc : RedisClient) (f : Faults) (id : String) (u : User)
    (hmiss : rc.data (userKey id) = none)
    (hrow : db.rows.find? (fun r => idEq id r.ID) = some u)
    (hstore : f.storeErr = false) (hset : f.cacheSetErr = false) :
    (GetUserByIDHandler idEq db rc f id).resp = ⟨200, ⟨"00", "Success", Payload.user u⟩⟩ ∧
    (GetUserByIDHandler idEq db rc f id).rc.data (userKey id) =
      some ⟨marshalUser u, tenMinutes⟩ ∧
    tenMinutes = 600 * 1000000000 ∧
    (∀ k, k ≠ userKey id → (GetUserByIDHandler idEq db rc f id).rc.data k = rc.data k) ∧
    (GetUserByIDHandler idEq db rc f id).db = db := by
  rw [GetUserByIDHandler_store_row idEq db rc f id u hmiss hrow hstore]
  refine ⟨rfl, by simp [hset, RedisClient.Set], by decide, ?_, rfl⟩
  simp only [hset, RedisClient.Set, Bool.false_eq_true, if_false]
  intro k hk
  simp [hk]

/-- C3 at a concrete input: the table holds `ann`, the cache is empty, the request is for
id 1. -/
theorem readByID_miss_populates_cache_witness :
    (GetUserByIDHandler numeralEq annTable RedisClient.empty noFaults "1").resp =
      ⟨200, ⟨"00", "Success", Payload.user ann⟩⟩ ∧
    (GetUserByIDHandler numeralEq annTable RedisClient.empty noFaults "1").rc.data (userKey "1") =
      some ⟨marshalUser ann, tenMinutes⟩ ∧
    tenMinutes = 600 * 1000000000 ∧
    (∀ k, k ≠ userKey "1" →
      (GetUserByIDHandler numeralEq annTable RedisClient.empty noFaults "1").rc.data k =
        RedisClient.empty.data k) ∧
    (GetUserByIDHandler numeralEq annTable RedisClient.empty noFaults "1").db = annTable :=
  readByID_miss_populates_cache numeralEq annTable RedisClient.empty noFaults "1" ann rfl
    (by decide) rfl rfl

/-- C2: Update and Delete invalidate exactly the list key. When the store statement succeeds
(and the `DEL` command reaches Redis), `"users"` is absent afterwards and every other key, in
particular every `user:<id>` including the one of the updated or deleted id, holds what it
held; when the store statement fails, the cache is left as it was. -/
theorem write_invalidates_exactly_users (db : Database) (rc : RedisClient) (f : Faults)
    (user : User) (param : String) :
    (f.storeErr = false → f.cacheDelErr = false →
      ((UpdateUserHandler db rc f (some user)).rc.data "users" = none ∧
       (∀ k, k ≠ "users" → (UpdateUserHandler db rc f (some user)).rc.data k = rc.data k) ∧
       (∀ id, (UpdateUserHandler db rc f (some user)).rc.data (userKey id) =
          rc.data (userKey id)) ∧
       (DeleteUserHandler db rc f param).rc.data "users" = none ∧
       (∀ k, k ≠ "users" → (DeleteUserHandler db rc f param).rc.data k = rc.data k) ∧
       (∀ id, (DeleteUserHandler db rc f param).rc.data (userKey id) =
          rc.data (userKey id)))) ∧
    (f.storeErr = true →
      (UpdateUserHandler db rc f (some user)).rc = rc ∧
      (DeleteUserHandler db rc f param).rc = rc) := by
  constructor
  · intro hs hd
    simp only [UpdateUserHandler, DeleteUserHandler, Database.ExecUpdate, Database.ExecDelete, hs,
      hd, RedisClient.Del, Bool.false_eq_true, if_false, if_true]
    refine ⟨trivial, ?_, ?_, trivial, ?_, ?_⟩
    · intro k hk; simp [hk]
    · intro id; simp [userKey_ne_users id]
    · intro k hk; simp [hk]
    · intro id; simp [userKey_ne_users id]
  · intro hs
    simp only [UpdateUserHandler, DeleteUserHandler, Database.ExecUpdate, Database.ExecDelete, hs,
      if_true, and_self]

/-- C2 at concrete inputs: an update and a delete of id 1 that succeed on a cache holding both
`"users"` and `user:1`, and the same requests when the store statement fails. -/
theorem write_invalidates_exactly_users_witness :
    ((UpdateUserHandler annTable (RedisClient.single "users" "null") noFaults (some ann)).rc.data
        "users" = none ∧
      (DeleteUserHandler annTable (RedisClient.single "user:1" (marshalUser ann)) noFaults
        "1").rc.data (userKey "1") =
        (RedisClient.single "user:1" (marshalUser ann)).data (userKey "1")) ∧
    ((UpdateUserHandler annTable (RedisClient.single "users" "null")
        storeDown (some ann)).rc = RedisClient.single "users" "null" ∧
      (DeleteUserHandler annTable (RedisClient.single "users" "null")
        storeDown "1").rc = RedisClient.single "users" "null") :=
  ⟨⟨((write_invalidates_exactly_users annTable (RedisClient.single "users" "null") noFaults ann
        "1").1 rfl rfl).1,
    ((write_invalidates_exactly_users annTable (RedisClient.single "user:1" (marshalUser ann))
        noFaults ann "1").1 rfl rfl).2.2.2.2.2 "1"⟩,
   (write_invalidates_exactly_users annTable (RedisClient.single "users" "null")
      storeDown ann "1").2 rfl⟩

/-- C4: Idempotent read. With the row in the store and `user:<id>` absent, the first
`GetUserByIDHandler` answers from the store ("Success") and the second, run on the state the
first one left, answers from the cache ("Success (cached)"); both carry returnCode "00" and
the same user, because `json.Unmarshal` of what the first call cached gives the user back. -/
theorem readByID_twice_same_data (idEq : String → GoInt → Bool) (db : Database)
    (rc : RedisClient) (f1 f2 : Faults) (id : String) (u : User)
    (hmiss : rc.data (userKey id) = none)
    (hrow : db.rows.find? (fun r => idEq id r.ID) = some u)
    (hstore : f1.storeErr = false) (hset : f1.cacheSetErr = false)
    (hget : f2.cacheGetErr = false) :
    (GetUserByIDHandler idEq db rc f1 id).resp = ⟨200, ⟨"00", "Success", Payload.user u⟩⟩ ∧
    (GetUserByIDHandler idEq (GetUserByIDHandler idEq db rc f1 id).db
        (GetUserByIDHandler idEq db rc f1 id).rc f2 id).resp =
      ⟨200, ⟨"00", "Success (cached)", Payload.user u⟩⟩ ∧
    (∃ e, (GetUserByIDHandler idEq db rc f1 id).rc.data (userKey id) = some e ∧
      unmarshalUser e.value = Except.ok u) := by
  rw [GetUserByIDHandler_store_row idEq db rc f1 id u hmiss hrow hstore]
  have h2 : (rc.Set f1.cacheSetErr (userKey id) (marshalUser u) tenMinutes).data (userKey id) =
      some ⟨marshalUser u, tenMinutes⟩ := by
    simp [RedisClient.Set, hset]
  refine ⟨rfl, ?_, ⟨_, h2, unmarshalUser_marshalUser u⟩⟩
  unfold GetUserByIDHandler RedisClient.Get
  simp only [hget, h2, Bool.false_eq_true, if_false, Option.map, unmarshalUser_marshalUser]

/-- C4 at a concrete input: two reads of id 1 from the table holding `ann`, starting with an
empty cache. -/
theorem readByID_twice_same_data_witness :
    (GetUserByIDHandler numeralEq annTable RedisClient.empty noFaults "1").resp =
      ⟨200, ⟨"00", "Success", Payload.user ann⟩⟩ ∧
    (GetUserByIDHandler numeralEq
        (GetUserByIDHandler numeralEq annTable RedisClient.empty noFaults "1").db
        (GetUserByIDHandler numeralEq annTable RedisClient.empty noFaults "1").rc noFaults
        "1").resp = ⟨200, ⟨"00", "Success (cached)", Payload.user ann⟩⟩ ∧
    (∃ e, (GetUserByIDHandler numeralEq annTable RedisClient.empty noFaults "1").rc.data
        (userKey "1") = some e ∧ unmarshalUser e.value = Except.ok ann) :=
  readByID_twice_same_data numeralEq annTable RedisClient.empty noFaults noFaults "1" ann rfl
    (by decide) rfl rfl rfl

/-- C7: Store-error mapping on a read miss. When `user:<id>` is no decodable cache hit,
`GetUserByIDHandler` answers 404 with returnCode "01" exactly when the lookup finds no row
(`sql.ErrNoRows`), and 500 with returnCode "99" exactly when the lookup fails with another
error; in both cases the response has no data and the cache and the store are left as they
were. -/
theorem readByID_miss_error_mapping (idEq : String → GoInt → Bool) (db : Database)
    (rc : RedisClient) (f : Faults) (id : String) (hno : userCacheHit rc f id = false) :
    (((GetUserByIDHandler idEq db rc f id).resp.status = 404 ∧
        (GetUserByIDHandler idEq db rc f id).resp.body.ReturnCode = "01") ↔
      db.QueryRowByID idEq f.storeErr id = ScanResult.errNoRows) ∧
    (((GetUserByIDHandler idEq db rc f id).resp.status = 500 ∧
        (GetUserByIDHandler idEq db rc f id).resp.body.ReturnCode = "99") ↔
      db.QueryRowByID idEq f.storeErr id = ScanResult.otherErr) ∧
    ((db.QueryRowByID idEq f.storeErr id = ScanResult.errNoRows ∨
        db.QueryRowByID idEq f.storeErr id = ScanResult.otherErr) →
      (GetUserByIDHandler idEq db rc f id).resp.body.Data = Payload.absent ∧
      (GetUserByIDHandler idEq db rc f id).rc = rc ∧
      (GetUserByIDHandler idEq db rc f id).db = db) := by
  rw [GetUserByIDHandler_of_miss idEq db rc f id hno]
  unfold getUserByIDFromStore
  cases hq : db.QueryRowByID idEq f.storeErr id with
  | row u => simp
  | errNoRows => simp
  | otherErr => simp

/-- C7 at concrete inputs: id 2 has no row in the table holding `ann` (404), and the same
lookup with a failing statement (500); the cache holds bytes that do not decode. -/
theorem readByID_miss_error_mapping_witness :
    ((GetUserByIDHandler numeralEq annTable (RedisClient.single "user:2" "oops") noFaults
        "2").resp.status = 404 ∧
      (GetUserByIDHandler numeralEq annTable (RedisClient.single "user:2" "oops") noFaults
        "2").resp.body.ReturnCode = "01") ∧
    ((GetUserByIDHandler numeralEq annTable (RedisClient.single "user:2" "oops")
        storeDown "2").resp.status = 500 ∧
      (GetUserByIDHandler numeralEq annTable (RedisClient.single "user:2" "oops")
        storeDown "2").resp.body.ReturnCode = "99") :=
  ⟨(readByID_miss_error_mapping numeralEq annTable (RedisClient.single "user:2" "oops") noFaults
      "2" (by decide)).1.2 (by decide),
   (readByID_miss_error_mapping numeralEq annTable (RedisClient.single "user:2" "oops")
      storeDown "2" (by decide)).2.1.2 (by decide)⟩

/-- C9: Silent no-op writes. When the store statement succeeds, Update and Delete answer
200 / "00" whatever the table holds, so exactly as for an existing id; Update's data is the
request's user; and when the id matches no row the table is left as it was. -/
theorem noop_writes_succeed (db : Database) (rc : RedisClient) (f : Faults) (user : User)
    (param : String) (hstore : f.storeErr = false) :
    (UpdateUserHandler db rc f (some user)).resp =
      ⟨200, ⟨"00", "User updated successfully", Payload.user user⟩⟩ ∧
    (DeleteUserHandler db rc f param).resp =
      ⟨200, ⟨"00", "User deleted successfully", Payload.absent⟩⟩ ∧
    ((∀ r ∈ db.rows, r.ID ≠ user.ID) → (UpdateUserHandler db rc f (some user)).db = db) ∧
    ((∀ r ∈ db.rows, r.ID ≠ (Atoi param).1) → (DeleteUserHandler db rc f param).db = db) := by
  simp only [UpdateUserHandler, DeleteUserHandler, Database.ExecUpdate, Database.ExecDelete,
    hstore, Bool.false_eq_true, if_false, true_and]
  constructor
  · intro h
    have e : db.rows.map (fun r => if r.ID = user.ID then
        (⟨r.ID, user.Name, user.Email, user.Age⟩ : User) else r) = db.rows := by
      conv_rhs => rw [← List.map_id db.rows]
      apply List.map_congr_left
      intro r hr
      simp [h r hr]
    rw [e]
  · intro h
    have e : db.rows.filter (fun r => decide (r.ID ≠ (Atoi param).1)) = db.rows := by
      rw [List.filter_eq_self]
      intro r hr
      simp [h r hr]
    rw [e]

/-- C9 at a concrete input: an update with id 2 and a delete of id 2 on the table that holds
only id 1. -/
theorem noop_writes_succeed_witness :
    (UpdateUserHandler annTable RedisClient.empty noFaults (some bob)).resp =
      ⟨200, ⟨"00", "User updated successfully", Payload.user bob⟩⟩ ∧
    (DeleteUserHandler annTable RedisClient.empty noFaults "2").resp =
      ⟨200, ⟨"00", "User deleted successfully", Payload.absent⟩⟩ ∧
    (UpdateUserHandler annTable RedisClient.empty noFaults (some bob)).db = annTable ∧
    (DeleteUserHandler annTable RedisClient.empty noFaults "2").db = annTable :=
  ⟨(noop_writes_succeed annTable RedisClient.empty noFaults bob "2" rfl).1,
   (noop_writes_succeed annTable RedisClient.empty noFaults bob "2" rfl).2.1,
   (noop_writes_succeed annTable RedisClient.empty noFaults bob "2" rfl).2.2.1 (by decide),
   (noop_writes_succeed annTable RedisClient.empty noFaults bob "2" rfl).2.2.2 (by decide)⟩

theorem getUserByIDFromStore_resp_congr (idEq : String → GoInt → Bool) (db : Database)
    (rc rc2 : RedisClient) (f f2 : Faults) (id : String) (hstore : f.storeErr = f2.storeErr) :
    (getUserByIDFromStore idEq db rc f id).resp = (getUserByIDFromStore idEq db rc2 f2 id).resp := by
  unfold getUserByIDFromStore
  rw [hstore]
  cases db.QueryRowByID idEq f2.storeErr id <;> rfl

theorem getUsersFromStore_resp_congr (db : Database) (rc rc2 : RedisClient) (f f2 : Faults)
    (hstore : f.storeErr = f2.storeErr) (hscan : f.scanErrAt = f2.scanErrAt) :
    (getUsersFromStore db rc f).resp = (getUsersFromStore db rc2 f2).resp := by
  unfold getUsersFromStore
  rw [hstore, hscan]
  cases db.QueryAll f2.storeErr with
  | none => rfl
  | some rows =>
    dsimp only
    cases scanRows rows 0 f2.scanErrAt none <;> rfl

/-- C8: Cache failures never surface. A `Get` that fails is a miss; with no decodable hit
the response of a read depends on the store outcome alone (so it is the same for any two
caches and any two sets of cache faults); the response of Update and Delete never depends on
the cache or on the `Del`; and a `Set` or `Del` that fails changes no response, hit or not. -/
theorem cache_failures_never_surface (idEq : String → GoInt → Bool) (db : Database)
    (rc rc2 : RedisClient) (f f2 : Faults) (id : String) (bind : Option User) (param : String)
    (hstore : f.storeErr = f2.storeErr) (hscan : f.scanErrAt = f2.scanErrAt) :
    (f.cacheGetErr = true → userCacheHit rc f id = false ∧ listCacheHit rc f = false) ∧
    (userCacheHit rc f id = false → userCacheHit rc2 f2 id = false →
      (GetUserByIDHandler idEq db rc f id).resp = (GetUserByIDHandler idEq db rc2 f2 id).resp) ∧
    (listCacheHit rc f = false → listCacheHit rc2 f2 = false →
      (GetUsersHandler db rc f).resp = (GetUsersHandler db rc2 f2).resp) ∧
    (UpdateUserHandler db rc f bind).resp = (UpdateUserHandler db rc2 f2 bind).resp ∧
    (DeleteUserHandler db rc f param).resp = (DeleteUserHandler db rc2 f2 param).resp ∧
    (f.cacheGetErr = f2.cacheGetErr →
      (GetUserByIDHandler idEq db rc f id).resp = (GetUserByIDHandler idEq db rc f2 id).resp ∧
      (GetUsersHandler db rc f).resp = (GetUsersHandler db rc f2).resp) := by
  refine ⟨fun h => ⟨userCacheHit_of_getErr rc f id h, listCacheHit_of_getErr rc f h⟩, ?_, ?_, ?_,
    ?_, ?_⟩
  · intro h1 h2
    rw [GetUserByIDHandler_of_miss idEq db rc f id h1,
      GetUserByIDHandler_of_miss idEq db rc2 f2 id h2]
    exact getUserByIDFromStore_resp_congr idEq db rc rc2 f f2 id hstore
  · intro h1 h2
    rw [GetUsersHandler_of_miss db rc f h1, GetUsersHandler_of_miss db rc2 f2 h2]
    exact getUsersFromStore_resp_congr db rc rc2 f f2 hstore hscan
  · unfold UpdateUserHandler
    cases bind with
    | none => rfl
    | some user =>
      simp only [hstore]
      cases db.ExecUpdate f2.storeErr user <;> rfl
  · unfold DeleteUserHandler
    rw [hstore]
    cases db.ExecDelete f2.storeErr (Atoi param).1 <;> rfl
  · intro hget
    constructor
    · unfold GetUserByIDHandler
      rw [hget]
      cases rc.Get f2.cacheGetErr (userKey id) with
      | none => exact getUserByIDFromStore_resp_congr idEq db rc rc f f2 id hstore
      | some s =>
        dsimp only
        cases unmarshalUser s with
        | ok u => rfl
        | error e => exact getUserByIDFromStore_resp_congr idEq db rc rc f f2 id hstore
    · unfold GetUsersHandler
      rw [hget]
      cases rc.Get f2.cacheGetErr "users" with
      | none => exact getUsersFromStore_resp_congr db rc rc f f2 hstore hscan
      | some s =>
        dsimp only
        cases unmarshalUsers s with
        | ok u => rfl
        | error e => exact getUsersFromStore_resp_congr db rc rc f f2 hstore hscan

/-- C8 at a concrete input: with every Redis command failing, a read of id 1 and a read of
the list answer as they do on an empty cache that works, although the cache holds other
entries under both keys; an update and a delete answer the same as well. -/
theorem cache_failures_never_surface_witness :
    (GetUserByIDHandler numeralEq annTable (RedisClient.single "user:1" (marshalUser bob))
        cacheDown "1").resp =
      (GetUserByIDHandler numeralEq annTable RedisClient.empty noFaults "1").resp ∧
    (GetUsersHandler annTable (RedisClient.single "users" "[]") cacheDown).resp =
      (GetUsersHandler annTable RedisClient.empty noFaults).resp ∧
    (UpdateUserHandler annTable (RedisClient.single "users" "[]") cacheDown (some ann)).resp =
      (UpdateUserHandler annTable RedisClient.empty noFaults (some ann)).resp ∧
    (DeleteUserHandler annTable (RedisClient.single "users" "[]") cacheDown "1").resp =
      (DeleteUserHandler annTable RedisClient.empty noFaults "1").resp :=
  ⟨(cache_failures_never_surface numeralEq annTable
      (RedisClient.single "user:1" (marshalUser bob)) RedisClient.empty cacheDown noFaults "1"
      none "1" rfl rfl).2.1 (by decide) (by decide),
   (cache_failures_never_surface numeralEq annTable (RedisClient.single "users" "[]")
      RedisClient.empty cacheDown noFaults "1" none "1" rfl rfl).2.2.1 (by decide) (by decide),
   (cache_failures_never_surface numeralEq annTable (RedisClient.single "users" "[]")
      RedisClient.empty cacheDown noFaults "1" (some ann) "1" rfl rfl).2.2.2.1,
   (cache_failures_never_surface numeralEq annTable (RedisClient.single "users" "[]")
      RedisClient.empty cacheDown noFaults "1" (some ann) "1" rfl rfl).2.2.2.2.1⟩

/-! ### Reads whose cached bytes do not decode -/

theorem foldl_append_some (rows acc : List User) :
    rows.foldl UserSlice.append (some acc) = some (acc ++ rows) := by
  induction rows generalizing acc with
  | nil => simp
  | cons u us ih => simp [List.foldl, UserSlice.append, ih]

/-- The slice built from the rows: nil for an empty table, the rows otherwise. -/
theorem sliceOfRows_eq (rows : List User) :
    sliceOfRows rows = if rows = [] then none else some rows := by
  cases rows with
  | nil => rfl
  | cons u us => simp [sliceOfRows, List.foldl, UserSlice.append, foldl_append_some]

theorem scanRows_no_error (rows : List User) (i : Nat) (acc : UserSlice) :
    scanRows rows i none acc = some (rows.foldl UserSlice.append acc) := by
  induction rows generalizing i acc with
  | nil => rfl
  | cons u us ih => simp [scanRows, ih]

/-- C5 as amended: a cached value that `json.Unmarshal` rejects is a miss. When the value
under `user:<id>` (under `"users"`) fails to decode, the handler answers exactly as it does
with the key absent, from the store, never with an error of its own; and when the store
answers and the `Set` reaches Redis, the key is overwritten with `json.Marshal` of the
store's result. A value that `json.Unmarshal` accepts, whatever bytes it is, is served as a
hit: the answer is "Success (cached)" with the decoded data, and the cache and the store are
left as they were. -/
theorem undecodable_entry_is_a_miss (idEq : String → GoInt → Bool) (db : Database)
    (rc : RedisClient) (f : Faults) (id : String) :
    (∀ s e, rc.Get f.cacheGetErr (userKey id) = some s → unmarshalUser s = Except.error e →
      (GetUserByIDHandler idEq db rc f id).resp =
        (GetUserByIDHandler idEq db (rc.Del false (userKey id)) f id).resp ∧
      (GetUserByIDHandler idEq db rc f id).db = db ∧
      (∀ u, db.QueryRowByID idEq f.storeErr id = ScanResult.row u →
        (GetUserByIDHandler idEq db rc f id).resp =
          ⟨200, ⟨"00", "Success", Payload.user u⟩⟩ ∧
        (f.cacheSetErr = false →
          (GetUserByIDHandler idEq db rc f id).rc.data (userKey id) =
            some ⟨marshalUser u, tenMinutes⟩))) ∧
    (∀ s e, rc.Get f.cacheGetErr "users" = some s → unmarshalUsers s = Except.error e →
      (GetUsersHandler db rc f).resp = (GetUsersHandler db (rc.Del false "users") f).resp ∧
      (GetUsersHandler db rc f).db = db ∧
      (f.storeErr = false → f.scanErrAt = none →
        (GetUsersHandler db rc f).resp =
          ⟨200, ⟨"00", "Success", Payload.users (sliceOfRows db.rows)⟩⟩ ∧
        (f.cacheSetErr = false →
          (GetUsersHandler db rc f).rc.data "users" =
            some ⟨marshalUsers (sliceOfRows db.rows), tenMinutes⟩))) ∧
    (∀ s u, rc.Get f.cacheGetErr (userKey id) = some s → unmarshalUser s = Except.ok u →
      (GetUserByIDHandler idEq db rc f id).resp =
        ⟨200, ⟨"00", "Success (cached)", Payload.user u⟩⟩ ∧
      (GetUserByIDHandler idEq db rc f id).rc = rc ∧
      (GetUserByIDHandler idEq db rc f id).db = db) ∧
    (∀ s us, rc.Get f.cacheGetErr "users" = some s → unmarshalUsers s = Except.ok us →
      (GetUsersHandler db rc f).resp =
        ⟨200, ⟨"00", "Success (cached)", Payload.users us⟩⟩ ∧
      (GetUsersHandler db rc f).rc = rc ∧
      (GetUsersHandler db rc f).db = db) := by
  refine ⟨?_, ?_, ?_, ?_⟩
  · intro s e hg hu
    have hno : userCacheHit rc f id = false := by simp [userCacheHit, hg, hu]
    have hno2 : userCacheHit (rc.Del false (userKey id)) f id = false :=
      userCacheHit_of_absent _ f id (by simp [RedisClient.Del])
    rw [GetUserByIDHandler_of_miss idEq db rc f id hno,
      GetUserByIDHandler_of_miss idEq db _ f id hno2]
    refine ⟨getUserByIDFromStore_resp_congr idEq db _ _ f f id rfl, ?_, ?_⟩
    · unfold getUserByIDFromStore
      cases db.QueryRowByID idEq f.storeErr id <;> rfl
    · intro u hq
      unfold getUserByIDFromStore
      rw [hq]
      refine ⟨rfl, ?_⟩
      intro hset
      simp [RedisClient.Set, hset]
  · intro s e hg hu
    have hno : listCacheHit rc f = false := by simp [listCacheHit, hg, hu]
    have hno2 : listCacheHit (rc.Del false "users") f = false :=
      listCacheHit_of_absent _ f (by simp [RedisClient.Del])
    rw [GetUsersHandler_of_miss db rc f hno, GetUsersHandler_of_miss db _ f hno2]
    refine ⟨getUsersFromStore_resp_congr db _ _ f f rfl rfl, ?_, ?_⟩
    · unfold getUsersFromStore
      cases db.QueryAll f.storeErr with
      | none => rfl
      | some rows =>
        dsimp only
        cases scanRows rows 0 f.scanErrAt none <;> rfl
    · intro hs hsc
      unfold getUsersFromStore Database.QueryAll
      simp only [hs, hsc, Bool.false_eq_true, if_false, scanRows_no_error]
      refine ⟨rfl, ?_⟩
      intro hset
      simp [RedisClient.Set, hset, sliceOfRows]
  · intro s u hg hu
    unfold GetUserByIDHandler
    simp only [hg, hu, and_self]
  · intro s us hg hu
    unfold GetUsersHandler
    simp only [hg, hu, and_self]

/-- C5 as amended, at concrete inputs: the bytes `oops` under `user:1` and under `"users"`;
both reads answer from the table holding `ann` and overwrite the key. The empty object under
`user:1` and an array holding it under `"users"` decode, and are served as hits. -/
theorem undecodable_entry_is_a_miss_witness :
    ((GetUserByIDHandler numeralEq annTable (RedisClient.single "user:1" "oops") noFaults
        "1").resp = ⟨200, ⟨"00", "Success", Payload.user ann⟩⟩ ∧
      (GetUserByIDHandler numeralEq annTable (RedisClient.single "user:1" "oops") noFaults
        "1").rc.data (userKey "1") = some ⟨marshalUser ann, tenMinutes⟩) ∧
    ((GetUsersHandler annTable (RedisClient.single "users" "oops") noFaults).resp =
        ⟨200, ⟨"00", "Success", Payload.users (sliceOfRows annTable.rows)⟩⟩ ∧
      (GetUsersHandler annTable (RedisClient.single "users" "oops") noFaults).rc.data "users" =
        some ⟨marshalUsers (sliceOfRows annTable.rows), tenMinutes⟩) ∧
    (GetUserByIDHandler numeralEq annTable (RedisClient.single "user:1" "\x7b\x7d") noFaults
      "1").resp = ⟨200, ⟨"00", "Success (cached)", Payload.user User.zero⟩⟩ ∧
    (GetUsersHandler annTable (RedisClient.single "users" "[\x7b\x7d]") noFaults).resp =
      ⟨200, ⟨"00", "Success (cached)", Payload.users (some [User.zero])⟩⟩ :=
  ⟨⟨(((undecodable_entry_is_a_miss numeralEq annTable (RedisClient.single "user:1" "oops")
        noFaults "1").1 "oops" JsonError.malformed (by decide) (by decide)).2.2 ann
        (by decide)).1,
    (((undecodable_entry_is_a_miss numeralEq annTable (RedisClient.single "user:1" "oops")
        noFaults "1").1 "oops" JsonError.malformed (by decide) (by decide)).2.2 ann
        (by decide)).2 rfl⟩,
   ⟨(((undecodable_entry_is_a_miss numeralEq annTable (RedisClient.single "users" "oops")
        noFaults "1").2.1 "oops" JsonError.malformed (by decide) (by decide)).2.2 rfl rfl).1,
    (((undecodable_entry_is_a_miss numeralEq annTable (RedisClient.single "users" "oops")
        noFaults "1").2.1 "oops" JsonError.malformed (by decide) (by decide)).2.2 rfl rfl).2
        rfl⟩,
   ((undecodable_entry_is_a_miss numeralEq annTable (RedisClient.single "user:1" "\x7b\x7d")
      noFaults "1").2.2.1 "\x7b\x7d" User.zero (by decide) (by decide)).1,
   ((undecodable_entry_is_a_miss numeralEq annTable (RedisClient.single "users" "[\x7b\x7d]")
      noFaults "1").2.2.2 "[\x7b\x7d]" (some [User.zero]) (by decide) (by decide)).1⟩

/-! ### Writes and the next read of the list -/

/-- `CreateUserHandler` never touches the cache: no `Set`, no `Del`. -/
theorem create_keeps_cache (db : Database) (rc : RedisClient) (f : Faults) (bind : Option User) :
    (CreateUserHandler db rc f bind).rc = rc := by
  unfold CreateUserHandler
  cases bind with
  | none => rfl
  | some user =>
    dsimp only
    cases db.ExecInsert f.storeErr user.Name user.Email user.Age with
    | none => rfl
    | some p => rfl

/-- After a successful Update or Delete whose `Del` reaches Redis, the next read of the list
misses the cache and, when its own calls succeed, answers "Success" with the current rows of
the table. -/
theorem readAll_after_update_or_delete (db : Database) (rc : RedisClient) (f f2 : Faults)
    (user : User) (param : String) (hstore : f.storeErr = false) (hdel : f.cacheDelErr = false)
    (hstore2 : f2.storeErr = false) (hscan2 : f2.scanErrAt = none) :
    (GetUsersHandler (UpdateUserHandler db rc f (some user)).db
        (UpdateUserHandler db rc f (some user)).rc f2).resp =
      ⟨200, ⟨"00", "Success",
        Payload.users (sliceOfRows (UpdateUserHandler db rc f (some user)).db.rows)⟩⟩ ∧
    (GetUsersHandler (DeleteUserHandler db rc f param).db
        (DeleteUserHandler db rc f param).rc f2).resp =
      ⟨200, ⟨"00", "Success",
        Payload.users (sliceOfRows (DeleteUserHandler db rc f param).db.rows)⟩⟩ := by
  have hU : (UpdateUserHandler db rc f (some user)).rc.data "users" = none := by
    simp [UpdateUserHandler, Database.ExecUpdate, hstore, hdel, RedisClient.Del]
  have hD : (DeleteUserHandler db rc f param).rc.data "users" = none := by
    simp [DeleteUserHandler, Database.ExecDelete, hstore, hdel, RedisClient.Del]
  constructor
  · rw [GetUsersHandler_of_miss _ _ f2 (listCacheHit_of_absent _ f2 hU)]
    unfold getUsersFromStore Database.QueryAll
    simp only [hstore2, hscan2, Bool.false_eq_true, if_false, scanRows_no_error]
    rfl
  · rw [GetUsersHandler_of_miss _ _ f2 (listCacheHit_of_absent _ f2 hD)]
    unfold getUsersFromStore Database.QueryAll
    simp only [hstore2, hscan2, Bool.false_eq_true, if_false, scanRows_no_error]
    rfl

/-- After a Create, whatever its result, a list that decodes under `"users"` is what the next
read of the list answers, as "Success (cached)": the rows of the table are not consulted. -/
theorem readAll_after_create (db : Database) (rc : RedisClient) (f f2 : Faults)
    (bind : Option User) (s : String) (us : UserSlice)
    (hget : rc.Get f2.cacheGetErr "users" = some s) (hdec : unmarshalUsers s = Except.ok us) :
    (GetUsersHandler (CreateUserHandler db rc f bind).db (CreateUserHandler db rc f bind).rc
      f2).resp = ⟨200, ⟨"00", "Success (cached)", Payload.users us⟩⟩ := by
  rw [create_keeps_cache]
  unfold GetUsersHandler
  simp only [hget, hdec]

theorem marshalUser_ne_empty_object (u : User) : marshalUser u ≠ "\x7b\x7d" := by
  intro h
  have h2 := congrArg String.data h
  simp [marshalUser, encodeUser, encodeString] at h2

theorem marshalUsers_ne_array_of_empty_object (s : UserSlice) :
    marshalUsers s ≠ "[\x7b\x7d]" := by
  intro h
  have h2 := congrArg String.data h
  cases s with
  | none => revert h2; decide
  | some us =>
    cases us with
    | nil => revert h2; decide
    | cons u us => simp [marshalUsers, encodeUserList, encodeUser, encodeString] at h2

/-- C5, counterexample: bytes that are not the serialization of any user, the empty object
under `user:1`, are served as a cache hit: the answer is "Success (cached)" with the zero
user and not the store's row `ann`, which a miss returns, and the key is not overwritten.
Likewise an array holding the empty object under `"users"`, which is the serialization of no
slice, is served as a list of one zero user. -/
theorem decodable_garbage_is_served :
    (∀ u, marshalUser u ≠ "\x7b\x7d") ∧
    (GetUserByIDHandler numeralEq annTable (RedisClient.single "user:1" "\x7b\x7d") noFaults
      "1").resp = ⟨200, ⟨"00", "Success (cached)", Payload.user User.zero⟩⟩ ∧
    (GetUserByIDHandler numeralEq annTable (RedisClient.single "user:1" "\x7b\x7d") noFaults
      "1").rc.data "user:1" = some ⟨"\x7b\x7d", tenMinutes⟩ ∧
    (GetUserByIDHandler numeralEq annTable RedisClient.empty noFaults "1").resp =
      ⟨200, ⟨"00", "Success", Payload.user ann⟩⟩ ∧
    (∀ s, marshalUsers s ≠ "[\x7b\x7d]") ∧
    (GetUsersHandler annTable (RedisClient.single "users" "[\x7b\x7d]") noFaults).resp =
      ⟨200, ⟨"00", "Success (cached)", Payload.users (some [User.zero])⟩⟩ ∧
    (GetUsersHandler annTable RedisClient.empty noFaults).resp =
      ⟨200, ⟨"00", "Success", Payload.users (some [ann])⟩⟩ :=
  ⟨marshalUser_ne_empty_object, by decide, by decide, by decide,
    marshalUsers_ne_array_of_empty_object, by decide, by decide⟩

/-! ### Reads of an id that has no row -/

/-- C6, counterexample: user 1 is read (and cached), then deleted; the table has no row for
id 1 any more, and the next read of id 1 answers 200 "Success (cached)" with the deleted
user instead of 404. -/
theorem deleted_user_is_served_from_cache :
    userRead.resp = ⟨200, ⟨"00", "Success", Payload.user ann⟩⟩ ∧
    userReadThenDelete.resp = ⟨200, ⟨"00", "User deleted successfully", Payload.absent⟩⟩ ∧
    userReadThenDelete.db.rows = [] ∧
    userReadThenDelete.db.rows.find? (fun r => numeralEq "1" r.ID) = none ∧
    (GetUserByIDHandler numeralEq userReadThenDelete.db userReadThenDelete.rc noFaults "1").resp =
      ⟨200, ⟨"00", "Success (cached)", Payload.user ann⟩⟩ := by
  refine ⟨by decide, by decide, by decide, by decide, by decide⟩

/-- C6 as amended: for an id that has no row in the store, when the lookup itself succeeds,
`GetUserByIDHandler` answers 404 / "01" without data (and changes nothing) whenever
`user:<id>` is no decodable cache hit; when `user:<id>` holds a value that decodes, it
answers 200 "Success (cached)" with the cached user, row or no row. -/
theorem readByID_without_row (idEq : String → GoInt → Bool) (db : Database)
    (rc : RedisClient) (f : Faults) (id : String)
    (hrow : db.rows.find? (fun r => idEq id r.ID) = none) (hstore : f.storeErr = false) :
    (userCacheHit rc f id = false →
      (GetUserByIDHandler idEq db rc f id).resp =
        ⟨404, ⟨"01", "User not found", Payload.absent⟩⟩ ∧
      (GetUserByIDHandler idEq db rc f id).rc = rc ∧
      (GetUserByIDHandler idEq db rc f id).db = db) ∧
    (∀ s u, rc.Get f.cacheGetErr (userKey id) = some s → unmarshalUser s = Except.ok u →
      (GetUserByIDHandler idEq db rc f id).resp =
        ⟨200, ⟨"00", "Success (cached)", Payload.user u⟩⟩) := by
  constructor
  · intro hno
    rw [GetUserByIDHandler_of_miss idEq db rc f id hno]
    simp only [getUserByIDFromStore, Database.QueryRowByID, hstore, hrow, Bool.false_eq_true,
      if_false, and_self]
  · intro s u hg hu
    unfold GetUserByIDHandler
    simp only [hg, hu]

/-- C6 as amended, at concrete inputs: id 2 has no row in the table holding `ann`; with an
empty cache the answer is 404, with `bob` cached under `user:2` it is the cached `bob`. -/
theorem readByID_without_row_witness :
    (GetUserByIDHandler numeralEq annTable RedisClient.empty noFaults "2").resp =
      ⟨404, ⟨"01", "User not found", Payload.absent⟩⟩ ∧
    (GetUserByIDHandler numeralEq annTable (RedisClient.single "user:2" (marshalUser bob))
      noFaults "2").resp = ⟨200, ⟨"00", "Success (cached)", Payload.user bob⟩⟩ :=
  ⟨((readByID_without_row numeralEq annTable RedisClient.empty noFaults "2" (by decide) rfl).1
      (by decide)).1,
   (readByID_without_row numeralEq annTable (RedisClient.single "user:2" (marshalUser bob))
      noFaults "2" (by decide) rfl).2 (marshalUser bob) bob (by decide)
      (unmarshalUser_marshalUser bob)⟩

/-! ### The path parameter of Delete -/

/-- The value `strconv.ParseInt` returns next to an error: 0 with a syntax error; with a range
error the bound on the side of the sign, `math.MinInt64` after a leading minus sign and
`math.MaxInt64` otherwise. -/
theorem ParseInt_error_value (s : List Char) :
    ((ParseInt s).2 = some NumError.errSyntax → (ParseInt s).1 = GoInt.zero) ∧
    ((ParseInt s).2 = some NumError.errRange →
      (ParseInt s).1 = if s.head? = some '-' then GoInt.min else GoInt.max) := by
  unfold ParseInt
  cases s with
  | nil => simp
  | cons c cs =>
    dsimp only
    by_cases hc : c = '-'
    · subst hc
      simp only [decide_True, if_true, List.head?_cons]
      split_ifs <;> simp
    · simp only [hc, decide_False, Bool.false_eq_true, if_false, List.head?_cons,
        Option.some.injEq]
      split_ifs <;> simp

/-- C10, counterexample: the path parameter `9223372036854775808` does not parse (`Atoi`
returns `ErrRange`), and Delete does not behave as Delete of id 0: `Atoi` returns
`math.MaxInt64`, so the row with that id is deleted and the row with id 0 is kept, where
Delete of id 0 does the opposite. -/
theorem delete_out_of_range_is_not_delete_zero :
    (Atoi "9223372036854775808").2 = some NumError.errRange ∧
    (Atoi "9223372036854775808").1 = GoInt.max ∧
    (DeleteUserHandler edgeTable RedisClient.empty noFaults "9223372036854775808").db.rows =
      [nil0] ∧
    (DeleteUserHandler edgeTable RedisClient.empty noFaults "0").db.rows = [zed] := by
  refine ⟨by decide, by decide, by decide, by decide⟩

/-- C10 as amended: the `Atoi` error is dropped and no path parameter gives a 400. A
parameter on which `Atoi` returns a syntax error is handled exactly as the parameter `0`; a
parameter on which `Atoi` returns a range error is handled exactly as the bound on the side
of its sign, `-9223372036854775808` when it starts with a minus sign and
`9223372036854775807` when it does not; the statement deletes the rows whose id is the value
`Atoi` returned; and whenever the store statement succeeds the answer is 200 / "00" and,
the `Del` reaching Redis, `"users"` is absent afterwards. -/
theorem delete_ignores_parse_error (db : Database) (rc : RedisClient) (f : Faults)
    (param : String) :
    ((Atoi param).2 = some NumError.errSyntax →
      (Atoi param).1 = GoInt.zero ∧
      DeleteUserHandler db rc f param = DeleteUserHandler db rc f "0") ∧
    ((Atoi param).2 = some NumError.errRange → param.data.head? ≠ some '-' →
      (Atoi param).1 = GoInt.max ∧
      DeleteUserHandler db rc f param = DeleteUserHandler db rc f "9223372036854775807") ∧
    ((Atoi param).2 = some NumError.errRange → param.data.head? = some '-' →
      (Atoi param).1 = GoInt.min ∧
      DeleteUserHandler db rc f param = DeleteUserHandler db rc f "-9223372036854775808") ∧
    (DeleteUserHandler db rc f param).resp.status ≠ 400 ∧
    (f.storeErr = false →
      (DeleteUserHandler db rc f param).resp =
        ⟨200, ⟨"00", "User deleted successfully", Payload.absent⟩⟩ ∧
      (DeleteUserHandler db rc f param).db.rows =
        db.rows.filter (fun r => decide (r.ID ≠ (Atoi param).1)) ∧
      (f.cacheDelErr = false → (DeleteUserHandler db rc f param).rc.data "users" = none)) := by
  have h0 : (Atoi "0").1 = GoInt.zero := by decide
  have hmax : (Atoi "9223372036854775807").1 = GoInt.max := by decide
  have hmin : (Atoi "-9223372036854775808").1 = GoInt.min := by decide
  refine ⟨?_, ?_, ?_, ?_, ?_⟩
  · intro h
    have hv : (Atoi param).1 = GoInt.zero := (ParseInt_error_value param.data).1 h
    refine ⟨hv, ?_⟩
    unfold DeleteUserHandler
    rw [h0, hv]
  · intro h hsign
    have hv : (Atoi param).1 = GoInt.max := by
      have := (ParseInt_error_value param.data).2 h
      rwa [if_neg hsign] at this
    refine ⟨hv, ?_⟩
    unfold DeleteUserHandler
    rw [hmax, hv]
  · intro h hsign
    have hv : (Atoi param).1 = GoInt.min := by
      have := (ParseInt_error_value param.data).2 h
      rwa [if_pos hsign] at this
    refine ⟨hv, ?_⟩
    unfold DeleteUserHandler
    rw [hmin, hv]
  · unfold DeleteUserHandler
    cases db.ExecDelete f.storeErr (Atoi param).1 <;> simp
  · intro hs
    simp only [DeleteUserHandler, Database.ExecDelete, hs, Bool.false_eq_true, if_false, true_and]
    intro hd
    simp [RedisClient.Del, hd]

/-- C10 as amended, at concrete inputs: `abc` (syntax error) is handled as `0`;
`99999999999999999999` and `99999999999999999999x` (range errors, the second although it is
no numeral) as `9223372036854775807`; `-99999999999999999999` (range error) as
`-9223372036854775808`; and the answer to `abc` is 200 / "00". -/
theorem delete_ignores_parse_error_witness :
    DeleteUserHandler edgeTable RedisClient.empty noFaults "abc" =
      DeleteUserHandler edgeTable RedisClient.empty noFaults "0" ∧
    DeleteUserHandler edgeTable RedisClient.empty noFaults "99999999999999999999" =
      DeleteUserHandler edgeTable RedisClient.empty noFaults "9223372036854775807" ∧
    DeleteUserHandler edgeTable RedisClient.empty noFaults "99999999999999999999x" =
      DeleteUserHandler edgeTable RedisClient.empty noFaults "9223372036854775807" ∧
    DeleteUserHandler edgeTable RedisClient.empty noFaults "-99999999999999999999" =
      DeleteUserHandler edgeTable RedisClient.empty noFaults "-9223372036854775808" ∧
    (DeleteUserHandler edgeTable RedisClient.empty noFaults "abc").resp =
      ⟨200, ⟨"00", "User deleted successfully", Payload.absent⟩⟩ :=
  ⟨((delete_ignores_parse_error edgeTable RedisClient.empty noFaults "abc").1 (by decide)).2,
   ((delete_ignores_parse_error edgeTable RedisClient.empty noFaults
      "99999999999999999999").2.1 (by decide) (by decide)).2,
   ((delete_ignores_parse_error edgeTable RedisClient.empty noFaults
      "99999999999999999999x").2.1 (by decide) (by decide)).2,
   ((delete_ignores_parse_error edgeTable RedisClient.empty noFaults
      "-99999999999999999999").2.2.1 (by decide) (by decide)).2,
   ((delete_ignores_parse_error edgeTable RedisClient.empty noFaults "abc").2.2.2.2 rfl).1⟩

/-! ### Create and the list key -/

/-- C1: `CreateUserHandler` does not invalidate `"users"`. After a read of the list has
cached it, a successful Create leaves the key as it was, and the next read of the list
answers "Success (cached)" with the list from before the write, without the new row that
the table holds. `UpdateUserHandler` in the same state removes the key. -/
theorem create_leaves_stale_list :
    listRead.resp = ⟨200, ⟨"00", "Success", Payload.users (some [ann])⟩⟩ ∧
    listReadThenCreate.resp = ⟨200, ⟨"00", "User created successfully", Payload.user bob⟩⟩ ∧
    listReadThenCreate.db.rows = [ann, bob] ∧
    listReadThenCreate.rc.data "users" = some ⟨marshalUsers (some [ann]), tenMinutes⟩ ∧
    (GetUsersHandler listReadThenCreate.db listReadThenCreate.rc noFaults).resp =
      ⟨200, ⟨"00", "Success (cached)", Payload.users (some [ann])⟩⟩ ∧
    listReadThenUpdate.rc.data "users" = none ∧
    (GetUsersHandler listReadThenUpdate.db listReadThenUpdate.rc noFaults).resp =
      ⟨200, ⟨"00", "Success", Payload.users (some [ann])⟩⟩ := by
  refine ⟨by decide, by decide, by decide, by decide, by decide, by decide, by decide⟩

end SimpleMysqlRedis
